import Mathlib

/-!
# IOHprofiler/Experimentation: triggers, loggers and two problems

Shallow embedding of `include/ioh/logger/triggers.hpp` and
`include/ioh/logger/loggers.hpp`, of `LeadingOnes::evaluate`
(`include/ioh/problem/pbo/leading_ones.hpp`) and of the constructor and `evaluate` of
`SharpRidge` (`include/ioh/problem/bbob/sharp_ridge.hpp`).  The ECDF logger, of which
the sources have the test only, is modelled from the specification.

Modelling conventions.

* A `double` is a value of `common.Double`: NaN, the two infinities, or a finite
  number (a rational; the program only compares and copies such values, so the
  sign of zero and the rounding of arithmetic play no role).
* The objects with a state of their own (`trigger::Always`, which has none, and
  `trigger::OnImprovement`) live in a memory indexed by address.  A
  `std::reference_wrapper<logger::Trigger>` is either the address of such an
  object or a `trigger::Set` (`Any`, `All`), which is given by the list of its
  own references.  The same object may therefore be referenced several times.
* `assert` is active in Debug builds and compiled out when `NDEBUG` is defined;
  the build is a parameter `ndebug : Bool` of every function containing one.
-/

namespace ioh

namespace common

/-- Optimization direction, `common::OptimizationType`. -/
inductive OptimizationType
  | Minimization
  | Maximization
  deriving DecidableEq, Repr

/-- Values of the C++ type `double`: not-a-number, minus infinity, a finite number,
plus infinity. -/
inductive Double
  | nan
  | neg_infinity
  | finite (q : ℚ)
  | infinity
  deriving DecidableEq

namespace Double

/-- The comparison `a < b` of two doubles; false as soon as one of them is NaN. -/
def lt : Double → Double → Bool
  | finite a, finite b => decide (a < b)
  | neg_infinity, finite _ => true
  | neg_infinity, infinity => true
  | finite _, infinity => true
  | _, _ => false

/-- The comparison `a > b` of two doubles. -/
def gt (a b : Double) : Bool := lt b a

end Double

/-- Modelled from the spec: `common::compare_objectives` is declared in
`problem/utils.hpp`, which is not among the sources.  The spec has the trigger
fire "only on strict improvement of the transformed value relative to the held
best", the best being seeded to plus infinity under minimization and to minus
infinity under maximization: `v1` is strictly better than `v2` when it is smaller
(minimization), respectively greater (maximization). -/
def compare_objectives (v1 v2 : Double) (optimization_type : OptimizationType) : Bool :=
  match optimization_type with
  | OptimizationType.Maximization => Double.gt v1 v2
  | OptimizationType.Minimization => Double.lt v1 v2

end common

namespace problem

/-- Modelled from the spec: `problem::MetaData` (declared in `problem/utils.hpp`, not
among the sources), the spec's `ProblemDescriptor{problem_id, instance_id,
n_variables, optimization_type}`. -/
structure MetaData where
  problem_id : Nat
  instance_id : Nat
  n_variables : Nat
  optimization_type : common.OptimizationType
  deriving DecidableEq

end problem

namespace logger

/-- Modelled from the spec: `logger::Info` (declared in `logger/loginfo.hpp`, not among
the sources), the spec's `EvaluationSnapshot{raw_y, transformed_y, raw_y_best,
transformed_y_best, evaluation_count}`. -/
structure Info where
  evaluations : Nat
  raw_y : common.Double
  transformed_y : common.Double
  raw_y_best : common.Double
  transformed_y_best : common.Double
  deriving DecidableEq

/-- What a `std::reference_wrapper<logger::Trigger>` refers to: the object at an
address (an `Always` or an `OnImprovement`), or a `trigger::Any` / `trigger::All`
with its member references `_triggers`. -/
inductive Trigger
  | object (address : Nat)
  | Any (_triggers : List Trigger)
  | All (_triggers : List Trigger)

end logger

namespace trigger

open common logger problem

/-- The data members of a trigger object that is not a `Set`: `Always` has none,
`OnImprovement` has `_best` and the constant `_type`. -/
inductive State
  | Always
  | OnImprovement (_best : Double) (_type : OptimizationType)
  deriving DecidableEq

/-- The trigger objects in memory, by address. -/
abbrev Memory := Nat → State

/-- Body of `OnImprovement::reset`: the value `_best` is set to, by `_type`. -/
def OnImprovement.reset (_type : OptimizationType) : Double :=
  if _type = OptimizationType.Minimization then Double.infinity else Double.neg_infinity

/-- Constructor `OnImprovement(pb_info)`: copies the optimization type and calls
`reset()`. -/
def OnImprovement.new (pb_info : MetaData) : State :=
  State.OnImprovement (OnImprovement.reset pb_info.optimization_type) pb_info.optimization_type

/-- `Always::operator()` and `OnImprovement::operator()` on the data members of the
object: the returned boolean and the data members after the call. -/
def State.call (s : State) (log_info : Info) (_pb_info : MetaData) : Bool × State :=
  match s with
  | State.Always => (true, State.Always)
  | State.OnImprovement _best _type =>
    if compare_objectives log_info.transformed_y _best _type then
      (true, State.OnImprovement log_info.transformed_y _type)
    else
      (false, State.OnImprovement _best _type)

/-- `Trigger::reset` (does nothing, inherited by `Always`) and `OnImprovement::reset`
on the data members of the object. -/
def State.reset (s : State) : State :=
  match s with
  | State.Always => State.Always
  | State.OnImprovement _ _type => State.OnImprovement (OnImprovement.reset _type) _type

end trigger

namespace logger

open common problem trigger

mutual
/-- The virtual call `trigger(log_info, pb_info)` through a reference: the returned
boolean and the memory after the call. -/
def Trigger.call : Trigger → Memory → Info → MetaData → Bool × Memory
  | Trigger.object a, m, log_info, pb_info =>
    ((State.call (m a) log_info pb_info).1,
      Function.update m a (State.call (m a) log_info pb_info).2)
  | Trigger.Any ts, m, log_info, pb_info => Trigger.any_loop ts m log_info pb_info
  | Trigger.All ts, m, log_info, pb_info => Trigger.all_loop ts m log_info pb_info
/-- The loop of `Any::operator()`: return true at the first member that fires, false
when the members are exhausted. -/
def Trigger.any_loop : List Trigger → Memory → Info → MetaData → Bool × Memory
  | [], m, _, _ => (false, m)
  | t :: ts, m, log_info, pb_info =>
    if (Trigger.call t m log_info pb_info).1 then
      (true, (Trigger.call t m log_info pb_info).2)
    else
      Trigger.any_loop ts (Trigger.call t m log_info pb_info).2 log_info pb_info
/-- The loop of `All::operator()`: return false at the first member that does not
fire, true when the members are exhausted. -/
def Trigger.all_loop : List Trigger → Memory → Info → MetaData → Bool × Memory
  | [], m, _, _ => (true, m)
  | t :: ts, m, log_info, pb_info =>
    if !(Trigger.call t m log_info pb_info).1 then
      (false, (Trigger.call t m log_info pb_info).2)
    else
      Trigger.all_loop ts (Trigger.call t m log_info pb_info).2 log_info pb_info
end

mutual
/-- The virtual call `trigger.reset()` through a reference: the memory after it. -/
def Trigger.reset : Trigger → Memory → Memory
  | Trigger.object a, m => Function.update m a (State.reset (m a))
  | Trigger.Any ts, m => Trigger.reset_loop ts m
  | Trigger.All ts, m => Trigger.reset_loop ts m
/-- The loop of `Set::reset`: reset every member in turn. -/
def Trigger.reset_loop : List Trigger → Memory → Memory
  | [], m => m
  | t :: ts, m => Trigger.reset_loop ts (Trigger.reset t m)
end

mutual
/-- The addresses of the objects reached from a reference. -/
def Trigger.addresses : Trigger → List Nat
  | Trigger.object a => [a]
  | Trigger.Any ts => Trigger.addresses_list ts
  | Trigger.All ts => Trigger.addresses_list ts
/-- The addresses of the objects reached from a list of references. -/
def Trigger.addresses_list : List Trigger → List Nat
  | [] => []
  | t :: ts => Trigger.addresses t ++ Trigger.addresses_list ts
end

/-- Two references share no object. -/
def Trigger.apart (t u : Trigger) : Prop :=
  ∀ a ∈ Trigger.addresses t, a ∉ Trigger.addresses u

instance (t u : Trigger) : Decidable (Trigger.apart t u) := by
  unfold Trigger.apart; infer_instance

end logger

namespace trigger

open common logger problem

/-- A `trigger::Set`, of which the sources have the two kinds `Any` and `All`, with its
member references `_triggers`. -/
inductive Set
  | Any (_triggers : List Trigger)
  | All (_triggers : List Trigger)

/-- The member `_triggers` of a `Set`. -/
def Set._triggers : Set → List Trigger
  | Set.Any ts => ts
  | Set.All ts => ts

/-- The `Set` as the `logger::Trigger` it is. -/
def Set.trigger : Set → Trigger
  | Set.Any ts => Trigger.Any ts
  | Set.All ts => Trigger.All ts

/-- The method `Set::size`. -/
def Set.size (s : Set) : Nat := (Set._triggers s).length

/-- The method `Set::push_back`. -/
def Set.push_back (s : Set) (t : Trigger) : Set :=
  match s with
  | Set.Any ts => Set.Any (ts ++ [t])
  | Set.All ts => Set.All (ts ++ [t])

/-- The call `_triggers(log_info, pb_info)` on a `Set`: `Any::operator()` or
`All::operator()`. -/
def Set.call (s : Set) (m : Memory) (log_info : Info) (pb_info : MetaData) : Bool × Memory :=
  Trigger.call (Set.trigger s) m log_info pb_info

/-- The method `Set::reset`. -/
def Set.reset (s : Set) (m : Memory) : Memory := Trigger.reset_loop (Set._triggers s) m

/-- The factory `trigger::any`, whose body is `return Any(triggers);`. -/
def any (triggers : List Trigger) : Set := Set.Any triggers

/-- The factory `trigger::all`, documented "Do log if ALL the given triggers are fired" and
declared to return an `All`; its body is `return Any(triggers);`, and the combinator is
the object this expression builds. -/
def all (triggers : List Trigger) : Set := Set.Any triggers

end trigger

namespace logger

/-- Modelled from the spec: `logger::Property` (declared in `logger/properties.hpp`, not
among the sources), "a named, possibly-absent scalar value source bound to a live data
source".  Of a property the loggers use the name only; `address` tells apart two
property objects of the same name. -/
structure Property where
  name : String
  address : Nat
  deriving DecidableEq

end logger

/-- How a call can end without returning normally: a failed `assert` (Debug builds
only), or a thrown `std::runtime_error`. -/
inductive Failure
  | assertion
  | runtime_error (what : String)
  deriving DecidableEq

/-- The end of a call: the failure, if any, and the state reached (at the failure, or
at the return). -/
structure Outcome (σ : Type) where
  failure : Option Failure
  state : σ

/-- An `assert(condition)` stops the program: only in a Debug build (`NDEBUG` not
defined) and only when the condition is false. -/
def assert_fails (ndebug : Bool) (condition : Bool) : Bool := !ndebug && !condition

/-- The method `insert_or_assign` of `std::map`, the map being the list of its entries
(of pairwise different keys): assign to the entry of key `k` if there is one, add the
entry otherwise.  The order in which a `std::map` is traversed (by key) is not
modelled. -/
def insert_or_assign (k : String) (v : logger.Property) :
    List (String × logger.Property) → List (String × logger.Property)
  | [] => [(k, v)]
  | e :: rest => if e.1 = k then (k, v) :: rest else e :: insert_or_assign k v rest

/-- The method `at` of `std::map`: the property stored under the key `k`, if any. -/
def lookup (k : String) : List (String × logger.Property) → Option logger.Property
  | [] => none
  | e :: rest => if e.1 = k then some e.2 else lookup k rest

/-- The data members of a `Logger`.  The reference `_triggers` is `none` when it refers
to the logger's own `_any` (constructors `Logger(triggers, properties)` and `Logger()`)
and is the referenced set otherwise.  The pointer `_problem` is `none` when null, and
the descriptor pointed to otherwise. -/
structure Logger where
  _any : List logger.Trigger
  _triggers : Option trigger.Set
  _problem : Option problem.MetaData
  _properties : List (String × logger.Property)

namespace Logger

open common logger problem trigger

/-- The set the reference `_triggers` refers to. -/
def triggers (self : Logger) : Set :=
  match self._triggers with
  | none => Set.Any self._any
  | some s => s

/-- The loop of `consistent_properties`: for each entry but the last, look for an entry
of the same property name further on. -/
def consistent_loop : List (String × Property) → Bool
  | [] => true
  | iw :: inext =>
    if inext.isEmpty then true
    else if inext.any (fun rwp => iw.2.name == rwp.2.name) then false
    else consistent_loop inext

/-- The method `consistent_properties` (Debug builds only). -/
def consistent_properties (_properties : List (String × Property)) : Bool :=
  if _properties.length ≤ 0 then false else consistent_loop _properties

/-- The method `map_properties`, from the registry `_properties` it starts with. -/
def map_properties (properties : List Property) (_properties : List (String × Property)) :
    List (String × Property) :=
  properties.foldl (fun acc p => insert_or_assign p.name p acc) _properties

/-- Constructor `Logger(triggers, properties)` from a list of triggers. -/
def new_any (ndebug : Bool) (triggers : List Trigger) (properties : List Property) :
    Outcome Logger :=
  let self : Logger :=
    { _any := triggers, _triggers := none, _problem := none,
      _properties := map_properties properties [] }
  if assert_fails ndebug (consistent_properties self._properties) then
    ⟨some Failure.assertion, self⟩
  else ⟨none, self⟩

/-- Constructor `Logger(triggers, properties)` from a `trigger::Set`. -/
def new_set (ndebug : Bool) (triggers : Set) (properties : List Property) : Outcome Logger :=
  let self : Logger :=
    { _any := [], _triggers := some triggers, _problem := none,
      _properties := map_properties properties [] }
  if assert_fails ndebug (consistent_properties self._properties) then
    ⟨some Failure.assertion, self⟩
  else ⟨none, self⟩

/-- Constructor `Logger()`. -/
def new_empty : Logger :=
  { _any := [], _triggers := none, _problem := none, _properties := [] }

/-- The method `attach_problem`. -/
def attach_problem (self : Logger) (problem : MetaData) : Logger :=
  { self with _problem := some problem }

/-- The method `Watcher::watch`. -/
def watch (ndebug : Bool) (self : Logger) (property : Property) : Outcome Logger :=
  if assert_fails ndebug (!self._properties.any (fun rwp => property.name == rwp.2.name)) then
    ⟨some Failure.assertion, self⟩
  else
    let self' : Logger :=
      { self with _properties := insert_or_assign property.name property self._properties }
    if assert_fails ndebug (consistent_properties self'._properties) then
      ⟨some Failure.assertion, self'⟩
    else ⟨none, self'⟩

end Logger

/-- A logger at work: its data members, the memory holding the trigger objects, and the
state `data` of the concrete logger, which the handler `call` updates. -/
structure World (α : Type) where
  logger : Logger
  memory : trigger.Memory
  data : α

namespace World

open common logger problem trigger

/-- The method `Logger::log`, the pure virtual `call` being given. -/
def log {α : Type} (ndebug : Bool) (call : Info → α → α) (w : World α) (log_info : Info) :
    Outcome (World α) :=
  if assert_fails ndebug w.logger._problem.isSome then ⟨some Failure.assertion, w⟩
  else
    match w.logger._problem with
    | none => ⟨some (Failure.runtime_error "Logger has not been attached to a problem."), w⟩
    | some _problem =>
      if assert_fails ndebug (decide (w.logger._properties.length > 0)) then
        ⟨some Failure.assertion, w⟩
      else if assert_fails ndebug (decide (Set.size (Logger.triggers w.logger) > 0)) then
        ⟨some Failure.assertion, w⟩
      else if (Set.call (Logger.triggers w.logger) w.memory log_info _problem).1 then
        ⟨none, { w with
            memory := (Set.call (Logger.triggers w.logger) w.memory log_info _problem).2,
            data := call log_info w.data }⟩
      else
        ⟨none, { w with
            memory := (Set.call (Logger.triggers w.logger) w.memory log_info _problem).2 }⟩

/-- The method `Logger::attach_problem`. -/
def attach_problem {α : Type} (w : World α) (problem : MetaData) : World α :=
  { w with logger := Logger.attach_problem w.logger problem }

/-- The method `Logger::reset`. -/
def reset {α : Type} (w : World α) : World α :=
  { w with memory := Set.reset (Logger.triggers w.logger) w.memory }

/-- The method `Watcher::watch`. -/
def watch {α : Type} (ndebug : Bool) (w : World α) (property : Property) : Outcome (World α) :=
  ⟨(Logger.watch ndebug w.logger property).failure,
    { w with logger := (Logger.watch ndebug w.logger property).state }⟩

end World

/-- The registry invariant: no two entries under the same key, and every entry stored
under the name of its property. -/
def registry_ok (_properties : List (String × logger.Property)) : Prop :=
  (_properties.map Prod.fst).Nodup ∧ ∀ e ∈ _properties, e.1 = e.2.name

/-- The states of a logger (with the trigger objects and the state of the concrete
logger) reached from a constructor that returned, by calls of `watch` that returned,
of `attach_problem`, of `log` and of `reset`. -/
inductive Reachable {α : Type} (ndebug : Bool) (call : logger.Info → α → α) : World α → Prop
  | new_any (triggers : List logger.Trigger) (properties : List logger.Property)
      (m : trigger.Memory) (d : α) :
      (Logger.new_any ndebug triggers properties).failure = none →
      Reachable ndebug call ⟨(Logger.new_any ndebug triggers properties).state, m, d⟩
  | new_set (triggers : trigger.Set) (properties : List logger.Property)
      (m : trigger.Memory) (d : α) :
      (Logger.new_set ndebug triggers properties).failure = none →
      Reachable ndebug call ⟨(Logger.new_set ndebug triggers properties).state, m, d⟩
  | new_empty (m : trigger.Memory) (d : α) : Reachable ndebug call ⟨Logger.new_empty, m, d⟩
  | watch (w : World α) (property : logger.Property) :
      Reachable ndebug call w → (World.watch ndebug w property).failure = none →
      Reachable ndebug call (World.watch ndebug w property).state
  | attach_problem (w : World α) (problem : problem.MetaData) :
      Reachable ndebug call w → Reachable ndebug call (World.attach_problem w problem)
  | log (w : World α) (log_info : logger.Info) :
      Reachable ndebug call w → Reachable ndebug call (World.log ndebug call w log_info).state
  | reset (w : World α) : Reachable ndebug call w → Reachable ndebug call (World.reset w)

/-- What reading through a pointer gives: the value pointed to, or, when the pointer is
null, undefined behaviour (nothing is checked and nothing is reported). -/
inductive Read (α : Type)
  | value (a : α)
  | null_dereference
  deriving DecidableEq

/-- The accessor `Logger::problem`, whose body is `return *_problem;`. -/
def Logger.problem (self : Logger) : Read problem.MetaData :=
  match self._problem with
  | none => Read.null_dereference
  | some problem => Read.value problem

/-- The calls `log(log_info)` of a sequence of snapshots, one after the other; a call
that throws leaves the logger as it was, and the sequence goes on. -/
def World.log_all {α : Type} (ndebug : Bool) (call : logger.Info → α → α) (w : World α)
    (log_infos : List logger.Info) : World α :=
  log_infos.foldl (fun w log_info => (World.log ndebug call w log_info).state) w

/-- The members of a list evaluated one after the other, each exactly once, whatever
they return: the memory after the calls. -/
def logger.Trigger.call_each (ts : List logger.Trigger) (m : trigger.Memory)
    (log_info : logger.Info) (pb_info : problem.MetaData) : trigger.Memory :=
  ts.foldl (fun m t => (logger.Trigger.call t m log_info pb_info).2) m

/-- A sequence of snapshots fed one by one to a trigger object: the data members of the
object after the calls. -/
def trigger.State.feed (s : trigger.State) (log_infos : List logger.Info)
    (pb_info : problem.MetaData) : trigger.State :=
  log_infos.foldl (fun s log_info => (trigger.State.call s log_info pb_info).2) s

/-- The comparison `a <= b` of two doubles; false as soon as one of them is NaN. -/
def common.Double.le (a b : common.Double) : Bool :=
  common.Double.lt a b || (a == b && a != common.Double.nan)

namespace logger

/-- Modelled from the spec: the ECDF aggregation logger (`logger::ECDF`), of which the
sources have the test only.  This is the index of a grid cell: "a four-axis count table
indexed by (function, dimension, instance, run)". -/
structure ECDFKey where
  function : Nat
  dimension : Nat
  instance_id : Nat
  run : Nat
  deriving DecidableEq

/-- Modelled from the spec: the ECDF aggregation logger (`logger::ECDF`), of which the
sources have the test only.  The engine has "a fixed set of target thresholds and
evaluation-budget checkpoints" (`targets`, `budgets`, one per bin) and "maintains, per
(function, dimension, instance, run) cell, a set of (target-bin, budget-bin) pairs
attained so far" (`grid`); `current` is the cell of the run in progress. -/
structure ECDF where
  targets : List common.Double
  budgets : List Nat
  current : ECDFKey
  grid : ECDFKey → List (Nat × Nat)

namespace ECDF

/-- Modelled from the spec: the pairs a log event of the missing `logger::ECDF` marks.
"Determine the current evaluation count (budget) and current best transformed value
(target) from the snapshot.  For every target bin at or beyond the achieved target, and
every budget bin at or before the current evaluation count, mark that pair"; "a value
exactly equal to a bin boundary counts as attained for that bin". -/
def pairs (self : ECDF) (log_info : Info) : List (Nat × Nat) :=
  (self.targets.enum.filter
      (fun it => common.Double.le log_info.transformed_y_best it.2)).flatMap
    (fun it =>
      (self.budgets.enum.filter (fun jb => decide (jb.2 ≤ log_info.evaluations))).map
        (fun jb => (it.1, jb.1)))

/-- Modelled from the spec: one pair marked in a cell of the missing `logger::ECDF`, "if
not already marked (monotone union — attained pairs are never un-attained)". -/
def mark (cell : List (Nat × Nat)) (pair : Nat × Nat) : List (Nat × Nat) :=
  if pair ∈ cell then cell else pair :: cell

/-- Modelled from the spec: the handler `call` of the missing `logger::ECDF`, which on
each triggered log event marks the pairs of the event in the cell of the run in
progress. -/
def call (log_info : Info) (self : ECDF) : ECDF :=
  { self with
    grid := Function.update self.grid self.current
      ((pairs self log_info).foldl mark (self.grid self.current)) }

/-- Modelled from the spec: the count of a cell of the missing `logger::ECDF`, "the
cardinality of its attained-pairs set". -/
def count (self : ECDF) (key : ECDFKey) : Nat := (self.grid key).length

end ECDF

end logger

namespace problem

namespace pbo

namespace LeadingOnes

/-- The loop of `LeadingOnes::evaluate`, at the index `i` with `remaining` indices up to
`n_variables` left and the current `result`; `none` when `x[i]` reads past the end of
the vector. -/
def evaluate_loop (x : List Int) : Nat → Nat → common.Double → Option common.Double
  | 0, _, result => some result
  | remaining + 1, i, result =>
    match x[i]? with
    | none => none
    | some xi =>
      if xi = 1 then evaluate_loop x remaining (i + 1) (common.Double.finite ((i + 1 : Nat) : ℚ))
      else some result

/-- The method `LeadingOnes::evaluate`, for `n_variables >= 0`. -/
def evaluate (n_variables : Nat) (x : List Int) : Option common.Double :=
  evaluate_loop x n_variables 0 (common.Double.finite 0)

/-- The constructor `LeadingOnes(instance, n_variables)`: the optimum `objective_.x` and
`objective_.y` it stores. -/
def new (n_variables : Nat) : List Int × Option common.Double :=
  (List.replicate n_variables 1, evaluate n_variables (List.replicate n_variables 1))

end LeadingOnes

end pbo

namespace bbob

/-- The operations on `double` that `SharpRidge::evaluate` uses, left uninterpreted. -/
structure Arithmetic (F : Type) where
  zero : F
  alpha : F
  of_int : Nat → F
  add : F → F → F
  mul : F → F → F
  div : F → F → F
  sqrt : F → F

namespace SharpRidge

/-- The member `n_linear_dimensions_` as the constructor initializes it:
`static_cast<int>(ceil(n_variables <= 40 ? 1 : n_variables / 40.0))`, for
`n_variables >= 0`.  The quotient is taken exactly: for an `int` that is not a multiple
of 40 the rounded quotient stays strictly between the same two integers, so its ceiling
is the ceiling of the exact quotient. -/
def n_linear_dimensions (n_variables : Nat) : Nat :=
  Int.toNat ⌈if n_variables ≤ 40 then (1 : ℚ) else (n_variables : ℚ) / 40⌉

/-- The indices `i` of the reads `x.at(i)` of `SharpRidge::evaluate`, in order: those of
the first loop, then those of the second. -/
def indices (n_variables n_linear_dimensions_ : Nat) : List Nat :=
  List.range' n_linear_dimensions_ (n_variables - n_linear_dimensions_) ++
    List.range n_linear_dimensions_

/-- The method `SharpRidge::evaluate`; `none` when `x.at(i)` throws `std::out_of_range`. -/
def evaluate {F : Type} (A : Arithmetic F) (n_variables n_linear_dimensions_ : Nat)
    (x : List F) : Option F :=
  ((List.range' n_linear_dimensions_ (n_variables - n_linear_dimensions_)).foldlM
      (fun result i => (x[i]?).map (fun xi => A.add result (A.mul xi xi))) A.zero).bind
    (fun result =>
      (List.range n_linear_dimensions_).foldlM
        (fun result i =>
          (x[i]?).map (fun xi =>
            A.add result (A.div (A.mul xi xi) (A.of_int n_linear_dimensions_))))
        (A.mul A.alpha (A.sqrt (A.div result (A.of_int n_linear_dimensions_)))))

end SharpRidge

end bbob

end problem

/-! ## Lemmas on the memory a trigger reads and writes -/

namespace logger

open common problem trigger

mutual
theorem Trigger.call_frame : ∀ (t : Trigger) (m : Memory) (i : Info) (p : MetaData) (a : Nat),
    a ∉ Trigger.addresses t → (Trigger.call t m i p).2 a = m a
  | Trigger.object b, m, i, p, a, ha => by
    have hne : a ≠ b := by
      intro h; apply ha; simp [Trigger.addresses, h]
    simp [Trigger.call, Function.update_noteq hne]
  | Trigger.Any ts, m, i, p, a, ha => by
    simp only [Trigger.call]
    exact Trigger.any_loop_frame ts m i p a (by simpa [Trigger.addresses] using ha)
  | Trigger.All ts, m, i, p, a, ha => by
    simp only [Trigger.call]
    exact Trigger.all_loop_frame ts m i p a (by simpa [Trigger.addresses] using ha)
theorem Trigger.any_loop_frame : ∀ (ts : List Trigger) (m : Memory) (i : Info) (p : MetaData)
    (a : Nat), a ∉ Trigger.addresses_list ts → (Trigger.any_loop ts m i p).2 a = m a
  | [], m, i, p, a, _ => by simp [Trigger.any_loop]
  | t :: ts, m, i, p, a, ha => by
    simp only [Trigger.addresses_list, List.mem_append, not_or] at ha
    simp only [Trigger.any_loop]
    split
    · exact Trigger.call_frame t m i p a ha.1
    · rw [Trigger.any_loop_frame ts _ i p a ha.2]
      exact Trigger.call_frame t m i p a ha.1
theorem Trigger.all_loop_frame : ∀ (ts : List Trigger) (m : Memory) (i : Info) (p : MetaData)
    (a : Nat), a ∉ Trigger.addresses_list ts → (Trigger.all_loop ts m i p).2 a = m a
  | [], m, i, p, a, _ => by simp [Trigger.all_loop]
  | t :: ts, m, i, p, a, ha => by
    simp only [Trigger.addresses_list, List.mem_append, not_or] at ha
    simp only [Trigger.all_loop]
    split
    · exact Trigger.call_frame t m i p a ha.1
    · rw [Trigger.all_loop_frame ts _ i p a ha.2]
      exact Trigger.call_frame t m i p a ha.1
end

mutual
theorem Trigger.call_local : ∀ (t : Trigger) (m m' : Memory) (i : Info) (p : MetaData)
    (S : Nat → Prop), (∀ a ∈ Trigger.addresses t, S a) → (∀ a, S a → m a = m' a) →
    (Trigger.call t m i p).1 = (Trigger.call t m' i p).1 ∧
      ∀ a, S a → (Trigger.call t m i p).2 a = (Trigger.call t m' i p).2 a
  | Trigger.object b, m, m', i, p, S, hS, hm => by
    have hb : m b = m' b := hm b (hS b (by simp [Trigger.addresses]))
    refine ⟨by simp [Trigger.call, hb], ?_⟩
    intro a ha
    by_cases hab : a = b
    · subst hab; simp [Trigger.call, hb]
    · simp [Trigger.call, Function.update_noteq hab, hm a ha]
  | Trigger.Any ts, m, m', i, p, S, hS, hm => by
    simp only [Trigger.call]
    exact Trigger.any_loop_local ts m m' i p S (by simpa [Trigger.addresses] using hS) hm
  | Trigger.All ts, m, m', i, p, S, hS, hm => by
    simp only [Trigger.call]
    exact Trigger.all_loop_local ts m m' i p S (by simpa [Trigger.addresses] using hS) hm
theorem Trigger.any_loop_local : ∀ (ts : List Trigger) (m m' : Memory) (i : Info) (p : MetaData)
    (S : Nat → Prop), (∀ a ∈ Trigger.addresses_list ts, S a) → (∀ a, S a → m a = m' a) →
    (Trigger.any_loop ts m i p).1 = (Trigger.any_loop ts m' i p).1 ∧
      ∀ a, S a → (Trigger.any_loop ts m i p).2 a = (Trigger.any_loop ts m' i p).2 a
  | [], m, m', i, p, S, _, hm => by simpa [Trigger.any_loop] using hm
  | t :: ts, m, m', i, p, S, hS, hm => by
    have ht := Trigger.call_local t m m' i p S
      (fun a ha => hS a (by simp [Trigger.addresses_list, ha])) hm
    have hts := Trigger.any_loop_local ts (Trigger.call t m i p).2 (Trigger.call t m' i p).2 i p S
      (fun a ha => hS a (by simp [Trigger.addresses_list, ha])) ht.2
    simp only [Trigger.any_loop, ← ht.1]
    split
    · exact ⟨rfl, ht.2⟩
    · exact hts
theorem Trigger.all_loop_local : ∀ (ts : List Trigger) (m m' : Memory) (i : Info) (p : MetaData)
    (S : Nat → Prop), (∀ a ∈ Trigger.addresses_list ts, S a) → (∀ a, S a → m a = m' a) →
    (Trigger.all_loop ts m i p).1 = (Trigger.all_loop ts m' i p).1 ∧
      ∀ a, S a → (Trigger.all_loop ts m i p).2 a = (Trigger.all_loop ts m' i p).2 a
  | [], m, m', i, p, S, _, hm => by simpa [Trigger.all_loop] using hm
  | t :: ts, m, m', i, p, S, hS, hm => by
    have ht := Trigger.call_local t m m' i p S
      (fun a ha => hS a (by simp [Trigger.addresses_list, ha])) hm
    have hts := Trigger.all_loop_local ts (Trigger.call t m i p).2 (Trigger.call t m' i p).2 i p S
      (fun a ha => hS a (by simp [Trigger.addresses_list, ha])) ht.2
    simp only [Trigger.all_loop, ← ht.1]
    split
    · exact ⟨rfl, ht.2⟩
    · exact hts
end

/-- Calling a trigger does not change what a trigger sharing no object with it returns. -/
theorem Trigger.call_after_apart (t u : Trigger) (m : Memory) (i : Info) (p : MetaData)
    (h : Trigger.apart t u) :
    (Trigger.call u (Trigger.call t m i p).2 i p).1 = (Trigger.call u m i p).1 :=
  (Trigger.call_local u _ m i p (fun a => a ∈ Trigger.addresses u) (fun _ ha => ha)
    (fun a ha => Trigger.call_frame t m i p a (fun hat => h a hat ha))).1

end logger

open common logger problem trigger

/-! ## Lemmas on the property registry and on `reset` -/

theorem mem_insert_or_assign (k : String) (v : Property) (reg : List (String × Property))
    (e : String × Property) (h : e ∈ insert_or_assign k v reg) : e = (k, v) ∨ e ∈ reg := by
  induction reg with
  | nil => simpa [insert_or_assign] using h
  | cons x rest ih =>
    simp only [insert_or_assign] at h
    split at h
    · rcases List.mem_cons.1 h with h | h
      · exact Or.inl h
      · exact Or.inr (List.mem_cons_of_mem _ h)
    · rcases List.mem_cons.1 h with h | h
      · exact Or.inr (h ▸ List.mem_cons_self _ _)
      · rcases ih h with h | h
        · exact Or.inl h
        · exact Or.inr (List.mem_cons_of_mem _ h)

theorem mem_keys_insert_or_assign (k : String) (v : Property) (reg : List (String × Property))
    (x : String) (h : x ∈ (insert_or_assign k v reg).map Prod.fst) :
    x = k ∨ x ∈ reg.map Prod.fst := by
  obtain ⟨e, he, rfl⟩ := List.mem_map.1 h
  rcases mem_insert_or_assign k v reg e he with h | h
  · exact Or.inl (by rw [h])
  · exact Or.inr (List.mem_map.2 ⟨e, h, rfl⟩)

theorem nodup_keys_insert_or_assign (k : String) (v : Property)
    (reg : List (String × Property)) (h : (reg.map Prod.fst).Nodup) :
    ((insert_or_assign k v reg).map Prod.fst).Nodup := by
  induction reg with
  | nil => simp [insert_or_assign]
  | cons x rest ih =>
    rw [List.map_cons, List.nodup_cons] at h
    simp only [insert_or_assign]
    split
    · next hx =>
      rw [List.map_cons, List.nodup_cons]
      exact ⟨by simpa [← hx] using h.1, h.2⟩
    · next hx =>
      rw [List.map_cons, List.nodup_cons]
      refine ⟨fun hmem => ?_, ih h.2⟩
      rcases mem_keys_insert_or_assign k v rest x.1 hmem with h' | h'
      · exact hx h'
      · exact h.1 h'

theorem registry_ok_insert_or_assign (p : Property) (reg : List (String × Property))
    (h : registry_ok reg) : registry_ok (insert_or_assign p.name p reg) := by
  refine ⟨nodup_keys_insert_or_assign _ _ _ h.1, fun e he => ?_⟩
  rcases mem_insert_or_assign _ _ _ e he with h' | h'
  · rw [h']
  · exact h.2 e h'

theorem registry_ok_map_properties (properties : List Property)
    (reg : List (String × Property)) (h : registry_ok reg) :
    registry_ok (Logger.map_properties properties reg) := by
  unfold Logger.map_properties
  induction properties generalizing reg with
  | nil => simpa using h
  | cons p ps ih => exact ih _ (registry_ok_insert_or_assign p reg h)

theorem registry_ok_watch (ndebug : Bool) (self : Logger) (p : Property)
    (h : registry_ok self._properties) :
    registry_ok (Logger.watch ndebug self p).state._properties := by
  unfold Logger.watch
  split
  · exact h
  · dsimp only
    split <;> exact registry_ok_insert_or_assign p _ h

theorem registry_ok_unique (reg : List (String × Property)) (h : registry_ok reg)
    (n : String) (p q : Property) (hp : (n, p) ∈ reg) (hq : (n, q) ∈ reg) : p = q := by
  obtain ⟨hn, -⟩ := h
  induction reg with
  | nil => simp at hp
  | cons x rest ih =>
    rw [List.map_cons, List.nodup_cons] at hn
    rcases List.mem_cons.1 hp with hp | hp <;> rcases List.mem_cons.1 hq with hq | hq
    · exact (Prod.mk.inj (hp.trans hq.symm)).2
    · exact absurd (List.mem_map.2 ⟨(n, q), hq, by rw [← hp]⟩) hn.1
    · exact absurd (List.mem_map.2 ⟨(n, p), hp, by rw [← hq]⟩) hn.1
    · exact ih hp hq hn.2

theorem State.reset_reset (s : State) : State.reset (State.reset s) = State.reset s := by
  cases s <;> rfl

namespace logger

mutual
theorem Trigger.reset_apply : ∀ (t : Trigger) (m : Memory) (a : Nat),
    Trigger.reset t m a = if a ∈ Trigger.addresses t then State.reset (m a) else m a
  | Trigger.object b, m, a => by
    by_cases hab : a = b
    · subst hab; simp [Trigger.reset, Trigger.addresses]
    · simp [Trigger.reset, Trigger.addresses, hab, Function.update_noteq hab]
  | Trigger.Any ts, m, a => by
    simp only [Trigger.reset, Trigger.addresses]
    exact Trigger.reset_loop_apply ts m a
  | Trigger.All ts, m, a => by
    simp only [Trigger.reset, Trigger.addresses]
    exact Trigger.reset_loop_apply ts m a
theorem Trigger.reset_loop_apply : ∀ (ts : List Trigger) (m : Memory) (a : Nat),
    Trigger.reset_loop ts m a =
      if a ∈ Trigger.addresses_list ts then State.reset (m a) else m a
  | [], m, a => by simp [Trigger.reset_loop, Trigger.addresses_list]
  | t :: ts, m, a => by
    simp only [Trigger.reset_loop, Trigger.addresses_list, List.mem_append]
    rw [Trigger.reset_loop_apply ts _ a, Trigger.reset_apply t m a]
    by_cases h1 : a ∈ Trigger.addresses t <;> by_cases h2 : a ∈ Trigger.addresses_list ts <;>
      simp [h1, h2, State.reset_reset]
end

end logger

/-! ## Lemmas on sets whose members share no object -/

theorem Trigger.apart_symm {t u : Trigger} (h : Trigger.apart t u) : Trigger.apart u t :=
  fun a hau hat => h a hat hau

theorem Trigger.any_loop_iff_of_apart (ts : List Trigger) (m : Memory) (i : Info)
    (p : MetaData) (h : ts.Pairwise Trigger.apart) :
    (Trigger.any_loop ts m i p).1 = true ↔ ∃ t ∈ ts, (Trigger.call t m i p).1 = true := by
  induction ts generalizing m with
  | nil => simp [Trigger.any_loop]
  | cons t ts ih =>
    rw [List.pairwise_cons] at h
    have hsame : ∀ u ∈ ts, (Trigger.call u (Trigger.call t m i p).2 i p).1 =
        (Trigger.call u m i p).1 :=
      fun u hu => Trigger.call_after_apart t u m i p (h.1 u hu)
    simp only [Trigger.any_loop, List.mem_cons, exists_eq_or_imp]
    by_cases ht : (Trigger.call t m i p).1 = true
    · simp [ht]
    · simp only [ht, Bool.false_eq_true, if_false, false_or]
      rw [ih _ h.2]
      exact ⟨fun ⟨u, hu, hcu⟩ => ⟨u, hu, (hsame u hu) ▸ hcu⟩,
        fun ⟨u, hu, hcu⟩ => ⟨u, hu, (hsame u hu).symm ▸ hcu⟩⟩

theorem Trigger.all_loop_iff_of_apart (ts : List Trigger) (m : Memory) (i : Info)
    (p : MetaData) (h : ts.Pairwise Trigger.apart) :
    (Trigger.all_loop ts m i p).1 = true ↔ ∀ t ∈ ts, (Trigger.call t m i p).1 = true := by
  induction ts generalizing m with
  | nil => simp [Trigger.all_loop]
  | cons t ts ih =>
    rw [List.pairwise_cons] at h
    have hsame : ∀ u ∈ ts, (Trigger.call u (Trigger.call t m i p).2 i p).1 =
        (Trigger.call u m i p).1 :=
      fun u hu => Trigger.call_after_apart t u m i p (h.1 u hu)
    simp only [Trigger.all_loop, List.mem_cons, forall_eq_or_imp]
    by_cases ht : (Trigger.call t m i p).1 = true
    · simp only [ht, Bool.not_true, Bool.false_eq_true, if_false, true_and]
      rw [ih _ h.2]
      exact ⟨fun hall u hu => (hsame u hu) ▸ hall u hu,
        fun hall u hu => (hsame u hu).symm ▸ hall u hu⟩
    · simp [ht]

/-! ## Lemmas on the members a set evaluates -/

theorem Trigger.mem_addresses_list (ts : List Trigger) (a : Nat) :
    a ∈ Trigger.addresses_list ts ↔ ∃ u ∈ ts, a ∈ Trigger.addresses u := by
  induction ts with
  | nil => simp [Trigger.addresses_list]
  | cons t ts ih => simp [Trigger.addresses_list, ih]

theorem Trigger.call_each_append (ts us : List Trigger) (m : Memory) (i : Info)
    (p : MetaData) :
    Trigger.call_each (ts ++ us) m i p = Trigger.call_each us (Trigger.call_each ts m i p) i p := by
  simp [Trigger.call_each, List.foldl_append]

theorem Trigger.call_each_frame (ts : List Trigger) (m : Memory) (i : Info) (p : MetaData)
    (a : Nat) (ha : a ∉ Trigger.addresses_list ts) : Trigger.call_each ts m i p a = m a := by
  induction ts generalizing m with
  | nil => rfl
  | cons t ts ih =>
    simp only [Trigger.addresses_list, List.mem_append, not_or] at ha
    simp only [Trigger.call_each, List.foldl_cons]
    have := ih (Trigger.call t m i p).2 ha.2
    simp only [Trigger.call_each] at this
    rw [this]
    exact Trigger.call_frame t m i p a ha.1

theorem Trigger.any_loop_append (pre rest : List Trigger) (m : Memory) (i : Info)
    (p : MetaData) :
    Trigger.any_loop (pre ++ rest) m i p =
      if (Trigger.any_loop pre m i p).1 then Trigger.any_loop pre m i p
      else Trigger.any_loop rest (Trigger.any_loop pre m i p).2 i p := by
  induction pre generalizing m with
  | nil => simp [Trigger.any_loop]
  | cons t ts ih =>
    simp only [List.cons_append, Trigger.any_loop]
    by_cases ht : (Trigger.call t m i p).1 = true
    · simp [ht]
    · simp only [ht, Bool.false_eq_true, if_false]
      exact ih _

theorem Trigger.all_loop_append (pre rest : List Trigger) (m : Memory) (i : Info)
    (p : MetaData) :
    Trigger.all_loop (pre ++ rest) m i p =
      if (Trigger.all_loop pre m i p).1 then
        Trigger.all_loop rest (Trigger.all_loop pre m i p).2 i p
      else Trigger.all_loop pre m i p := by
  induction pre generalizing m with
  | nil => simp [Trigger.all_loop]
  | cons t ts ih =>
    simp only [List.cons_append, Trigger.all_loop]
    by_cases ht : (Trigger.call t m i p).1 = true
    · simp only [ht, Bool.not_true, Bool.false_eq_true, if_false]
      exact ih _
    · simp [ht]

theorem Trigger.any_loop_false_call_each (ts : List Trigger) (m : Memory) (i : Info)
    (p : MetaData) (h : (Trigger.any_loop ts m i p).1 = false) :
    (Trigger.any_loop ts m i p).2 = Trigger.call_each ts m i p := by
  induction ts generalizing m with
  | nil => rfl
  | cons t ts ih =>
    simp only [Trigger.any_loop] at h ⊢
    by_cases ht : (Trigger.call t m i p).1 = true
    · simp [ht] at h
    · simp only [ht, Bool.false_eq_true, if_false] at h ⊢
      rw [ih _ h]
      simp [Trigger.call_each]

theorem Trigger.all_loop_true_call_each (ts : List Trigger) (m : Memory) (i : Info)
    (p : MetaData) (h : (Trigger.all_loop ts m i p).1 = true) :
    (Trigger.all_loop ts m i p).2 = Trigger.call_each ts m i p := by
  induction ts generalizing m with
  | nil => rfl
  | cons t ts ih =>
    simp only [Trigger.all_loop] at h ⊢
    by_cases ht : (Trigger.call t m i p).1 = true
    · simp only [ht, Bool.not_true, Bool.false_eq_true, if_false] at h ⊢
      rw [ih _ h]
      simp [Trigger.call_each]
    · simp [ht] at h

theorem State.call_false_unchanged (s : State) (i : Info) (p : MetaData)
    (h : (State.call s i p).1 = false) : (State.call s i p).2 = s := by
  cases s with
  | Always => rfl
  | OnImprovement b ty =>
    by_cases hc : compare_objectives i.transformed_y b ty = true
    · simp [State.call, hc] at h
    · simp [State.call, hc]

theorem Trigger.call_each_objects_false (ts : List Trigger) (m : Memory) (i : Info)
    (p : MetaData) (hobj : ∀ u ∈ ts, ∃ b, u = Trigger.object b)
    (hfalse : ∀ u ∈ ts, (Trigger.call u m i p).1 = false) : Trigger.call_each ts m i p = m := by
  induction ts with
  | nil => rfl
  | cons t ts ih =>
    obtain ⟨b, rfl⟩ := hobj _ (List.mem_cons_self _ _)
    have hb := hfalse _ (List.mem_cons_self _ _)
    have hm : (Trigger.call (Trigger.object b) m i p).2 = m := by
      simp only [Trigger.call] at hb ⊢
      rw [State.call_false_unchanged _ _ _ hb, Function.update_eq_self]
    simp only [Trigger.call_each, List.foldl_cons, hm]
    exact ih (fun u hu => hobj u (List.mem_cons_of_mem _ hu))
      (fun u hu => hfalse u (List.mem_cons_of_mem _ hu))

theorem Trigger.call_each_object_of_apart (ts : List Trigger) (m : Memory) (i : Info)
    (p : MetaData) (a : Nat) (h : ts.Pairwise Trigger.apart) (ha : Trigger.object a ∈ ts) :
    Trigger.call_each ts m i p a = (State.call (m a) i p).2 := by
  induction ts generalizing m with
  | nil => simp at ha
  | cons t ts ih =>
    rw [List.pairwise_cons] at h
    simp only [Trigger.call_each, List.foldl_cons]
    rcases List.mem_cons.1 ha with ha | ha
    · subst ha
      have hfr := Trigger.call_each_frame ts (Trigger.call (Trigger.object a) m i p).2 i p a
        (fun hmem => by
          obtain ⟨u, hu, hau⟩ := (Trigger.mem_addresses_list ts a).1 hmem
          exact h.1 u hu a (by simp [Trigger.addresses]) hau)
      simp only [Trigger.call_each] at hfr
      rw [hfr]
      simp [Trigger.call]
    · have hih := ih (Trigger.call t m i p).2 h.2 ha
      simp only [Trigger.call_each] at hih
      rw [hih, Trigger.call_frame t m i p a
        (fun hat => h.1 _ ha a hat (by simp [Trigger.addresses]))]

/-! ## Lemmas on reachable registries, on `consistent_properties` and on `lookup` -/

theorem reachable_registry_ok {α : Type} (ndebug : Bool) (call : Info → α → α) (w : World α)
    (h : Reachable ndebug call w) : registry_ok w.logger._properties := by
  induction h with
  | new_any triggers properties m d _ =>
    have := registry_ok_map_properties properties [] ⟨List.nodup_nil, by simp⟩
    unfold Logger.new_any
    dsimp only
    split <;> exact this
  | new_set triggers properties m d _ =>
    have := registry_ok_map_properties properties [] ⟨List.nodup_nil, by simp⟩
    unfold Logger.new_set
    dsimp only
    split <;> exact this
  | new_empty m d => exact ⟨List.nodup_nil, by simp [Logger.new_empty]⟩
  | watch w property _ _ ih => exact registry_ok_watch ndebug w.logger property ih
  | attach_problem w problem _ ih => exact ih
  | log w log_info _ ih =>
    unfold World.log
    split
    · exact ih
    · split
      · exact ih
      · split
        · exact ih
        · split
          · exact ih
          · split <;> exact ih
  | reset w _ ih => exact ih

theorem registry_ok_names (reg : List (String × Property)) (h : registry_ok reg) :
    (reg.map (fun e => e.2.name)).Nodup := by
  have hmap : reg.map (fun e => e.2.name) = reg.map Prod.fst :=
    List.map_congr_left (fun e he => (h.2 e he).symm)
  rw [hmap]
  exact h.1

theorem consistent_loop_of_nodup (reg : List (String × Property))
    (h : (reg.map (fun e => e.2.name)).Nodup) : Logger.consistent_loop reg = true := by
  induction reg with
  | nil => rfl
  | cons iw inext ih =>
    rw [List.map_cons, List.nodup_cons] at h
    unfold Logger.consistent_loop
    split
    · rfl
    · have hany : (inext.any fun rwp => iw.2.name == rwp.2.name) = false := by
        rw [Bool.eq_false_iff]
        intro hc
        obtain ⟨r, hr, hname⟩ := List.any_eq_true.1 hc
        exact h.1 (List.mem_map.2 ⟨r, hr, (beq_iff_eq.1 hname).symm⟩)
      simp only [hany, Bool.false_eq_true, if_false]
      exact ih h.2

theorem lookup_insert_or_assign_self (k : String) (v : Property)
    (reg : List (String × Property)) : lookup k (insert_or_assign k v reg) = some v := by
  induction reg with
  | nil => simp [insert_or_assign, lookup]
  | cons e rest ih =>
    by_cases he : e.1 = k
    · simp [insert_or_assign, lookup, he]
    · simp [insert_or_assign, lookup, he, ih]

theorem lookup_insert_or_assign_of_ne (k : String) (v : Property)
    (reg : List (String × Property)) (n : String) (h : n ≠ k) :
    lookup n (insert_or_assign k v reg) = lookup n reg := by
  induction reg with
  | nil => simp [insert_or_assign, lookup, Ne.symm h]
  | cons e rest ih =>
    by_cases he : e.1 = k
    · have hen : e.1 ≠ n := fun hc => h (hc.symm.trans he)
      simp [insert_or_assign, lookup, he, Ne.symm h, hen]
    · by_cases hen : e.1 = n
      · simp [insert_or_assign, lookup, he, hen, h]
      · simp [insert_or_assign, lookup, he, hen, ih]

theorem lookup_none_key_ne (k : String) (reg : List (String × Property))
    (h : lookup k reg = none) : ∀ e ∈ reg, e.1 ≠ k := by
  induction reg with
  | nil => simp
  | cons x rest ih =>
    by_cases hx : x.1 = k
    · simp [lookup, hx] at h
    · simp only [lookup, hx, if_false] at h
      intro e he
      rcases List.mem_cons.1 he with he | he
      · rw [he]; exact hx
      · exact ih h e he

theorem length_insert_or_assign_of_lookup_none (k : String) (v : Property)
    (reg : List (String × Property)) (h : lookup k reg = none) :
    (insert_or_assign k v reg).length = reg.length + 1 := by
  induction reg with
  | nil => simp [insert_or_assign]
  | cons x rest ih =>
    by_cases hx : x.1 = k
    · simp [lookup, hx] at h
    · simp only [lookup, hx, if_false] at h
      simp [insert_or_assign, hx, ih h]

/-! ## Lemmas on `LeadingOnes` and `SharpRidge` -/

theorem evaluate_loop_eq (x : List Int) (remaining i : Nat) (h : i + remaining ≤ x.length) :
    problem.pbo.LeadingOnes.evaluate_loop x remaining i (Double.finite ((i : Nat) : ℚ)) =
      some (Double.finite
        ((i + (((x.drop i).take remaining).takeWhile (fun v => decide (v = 1))).length : Nat) :
          ℚ)) := by
  induction remaining generalizing i with
  | zero => simp [problem.pbo.LeadingOnes.evaluate_loop]
  | succ r ih =>
    have hi : i < x.length := by omega
    have hdrop : x.drop i = x[i] :: x.drop (i + 1) := List.drop_eq_getElem_cons hi
    simp only [problem.pbo.LeadingOnes.evaluate_loop, List.getElem?_eq_getElem hi]
    by_cases h1 : x[i] = 1
    · rw [if_pos h1, ih (i + 1) (by omega), hdrop]
      simp only [List.take_succ_cons, List.takeWhile_cons, h1, decide_True, if_true,
        List.length_cons]
      congr 3
      omega
    · rw [if_neg h1, hdrop]
      simp [List.take_succ_cons, List.takeWhile_cons, h1]

theorem n_linear_dimensions_eq (n_variables : Nat) :
    problem.bbob.SharpRidge.n_linear_dimensions n_variables =
      if n_variables ≤ 40 then 1 else (n_variables + 39) / 40 := by
  unfold problem.bbob.SharpRidge.n_linear_dimensions
  by_cases h : n_variables ≤ 40
  · simp [h]
  · simp only [h, if_false]
    obtain ⟨k, hk⟩ : ∃ k : Nat, k = (n_variables + 39) / 40 := ⟨_, rfl⟩
    rw [← hk]
    have h1 : n_variables ≤ 40 * k := by omega
    have h2 : 40 * k < n_variables + 40 := by omega
    have h1' : (n_variables : ℚ) ≤ 40 * (k : ℚ) := by exact_mod_cast h1
    have h2' : 40 * (k : ℚ) < (n_variables : ℚ) + 40 := by exact_mod_cast h2
    have hc : ⌈(n_variables : ℚ) / 40⌉ = (k : Int) := by
      rw [Int.ceil_eq_iff]
      constructor
      · rw [lt_div_iff₀ (by norm_num)]
        push_cast
        linarith
      · rw [div_le_iff₀ (by norm_num)]
        push_cast
        linarith
    rw [hc, Int.toNat_natCast]

theorem foldlM_reads_in_range {F : Type} (x : List F) (g : F → F → F) (l : List Nat)
    (init : F) (h : ∀ i ∈ l, i < x.length) :
    ∃ r, l.foldlM (fun result i => (x[i]?).map (fun xi => g result xi)) init = some r := by
  induction l generalizing init with
  | nil => exact ⟨init, rfl⟩
  | cons i l ih =>
    have hi : i < x.length := h i (List.mem_cons_self _ _)
    obtain ⟨r, hr⟩ := ih (g init x[i]) (fun j hj => h j (List.mem_cons_of_mem _ hj))
    refine ⟨r, ?_⟩
    rw [List.foldlM_cons, List.getElem?_eq_getElem hi]
    exact hr

/-! ## Lemmas on the attainment grid -/

theorem mark_grows (cell : List (Nat × Nat)) (pair : Nat × Nat) :
    cell.length ≤ (ECDF.mark cell pair).length ∧ ∀ q ∈ cell, q ∈ ECDF.mark cell pair := by
  unfold ECDF.mark
  split
  · exact ⟨le_refl _, fun q hq => hq⟩
  · exact ⟨by simp, fun q hq => List.mem_cons_of_mem _ hq⟩

theorem foldl_mark_grows (marked : List (Nat × Nat)) (cell : List (Nat × Nat)) :
    cell.length ≤ (marked.foldl ECDF.mark cell).length ∧
      ∀ q ∈ cell, q ∈ marked.foldl ECDF.mark cell := by
  induction marked generalizing cell with
  | nil => exact ⟨le_refl _, fun q hq => hq⟩
  | cons pair rest ih =>
    have h1 := mark_grows cell pair
    have h2 := ih (ECDF.mark cell pair)
    exact ⟨le_trans h1.1 h2.1, fun q hq => h2.2 q (h1.2 q hq)⟩

theorem ecdf_call_grows (self : ECDF) (log_info : Info) (key : ECDFKey) :
    ECDF.count self key ≤ ECDF.count (ECDF.call log_info self) key ∧
      ∀ q ∈ self.grid key, q ∈ (ECDF.call log_info self).grid key := by
  unfold ECDF.count ECDF.call
  by_cases hk : key = self.current
  · subst hk
    simp only [Function.update_same]
    exact foldl_mark_grows _ _
  · simp only [Function.update_noteq hk]
    exact ⟨le_refl _, fun q hq => hq⟩

theorem log_data_cases {α : Type} (ndebug : Bool) (call : Info → α → α) (w : World α)
    (log_info : Info) :
    (World.log ndebug call w log_info).state.data = w.data ∨
      (World.log ndebug call w log_info).state.data = call log_info w.data := by
  unfold World.log
  split
  · exact Or.inl rfl
  · split
    · exact Or.inl rfl
    · split
      · exact Or.inl rfl
      · split
        · exact Or.inl rfl
        · split
          · exact Or.inr rfl
          · exact Or.inl rfl

theorem ecdf_log_all_grows (ndebug : Bool) (w : World ECDF) (log_infos : List Info)
    (key : ECDFKey) :
    ECDF.count w.data key ≤ ECDF.count (World.log_all ndebug ECDF.call w log_infos).data key ∧
      ∀ q ∈ w.data.grid key,
        q ∈ (World.log_all ndebug ECDF.call w log_infos).data.grid key := by
  unfold World.log_all
  induction log_infos generalizing w with
  | nil => exact ⟨le_refl _, fun q hq => hq⟩
  | cons log_info rest ih =>
    have hstep : ECDF.count w.data key ≤
          ECDF.count (World.log ndebug ECDF.call w log_info).state.data key ∧
        ∀ q ∈ w.data.grid key,
          q ∈ (World.log ndebug ECDF.call w log_info).state.data.grid key := by
      rcases log_data_cases ndebug ECDF.call w log_info with h | h
      · rw [h]; exact ⟨le_refl _, fun q hq => hq⟩
      · rw [h]; exact ecdf_call_grows _ _ _
    have hrest := ih (World.log ndebug ECDF.call w log_info).state
    simp only [List.foldl_cons]
    exact ⟨le_trans hstep.1 hrest.1, fun q hq => hrest.2 q (hstep.2 q hq)⟩

/-! ## Lemmas on the comparison of doubles -/

theorem Double.lt_irrefl (v : Double) : Double.lt v v = false := by
  cases v <;> simp [Double.lt]

theorem compare_objectives_self (v : Double) (_type : OptimizationType) :
    compare_objectives v v _type = false := by
  cases _type <;> simp [compare_objectives, Double.gt, Double.lt_irrefl]

theorem Double.lt_trans (a b c : Double) (hab : Double.lt a b = true)
    (hbc : Double.lt b c = true) : Double.lt a c = true := by
  cases a <;> cases b <;> cases c <;> simp_all [Double.lt]
  exact hab.trans hbc

theorem compare_objectives_trans (a b c : Double) (_type : OptimizationType)
    (hab : compare_objectives a b _type = true) (hbc : compare_objectives b c _type = true) :
    compare_objectives a c _type = true := by
  cases _type
  · exact Double.lt_trans a b c hab hbc
  · exact Double.lt_trans c b a hbc hab

theorem compare_objectives_of_not_better (y z : ℚ) (b : Double) (_type : OptimizationType)
    (hy : compare_objectives (Double.finite y) b _type = false)
    (hz : compare_objectives (Double.finite z) b _type = true) :
    compare_objectives (Double.finite z) (Double.finite y) _type = true := by
  cases _type <;> cases b <;>
    simp_all [compare_objectives, Double.gt, Double.lt]
  · exact lt_of_lt_of_le hz hy
  · exact lt_of_le_of_lt hy hz

theorem compare_objectives_finite_reset (q : ℚ) (_type : OptimizationType) :
    compare_objectives (Double.finite q) (OnImprovement.reset _type) _type = true := by
  cases _type <;> simp [compare_objectives, OnImprovement.reset, Double.gt, Double.lt]

/-! ## Lemmas on a sequence of values fed to an `OnImprovement` -/

theorem feed_append (s : State) (pre : List Info) (x : Info) (pb : MetaData) :
    State.feed s (pre ++ [x]) pb = (State.call (State.feed s pre pb) x pb).2 := by
  simp [State.feed, List.foldl_append]

theorem feed_finite (b0 : Double) (_type : OptimizationType) (pb : MetaData) (pre : List Info)
    (hfin : ∀ e ∈ pre, ∃ q, e.transformed_y = Double.finite q) :
    ∃ best, State.feed (State.reset (State.OnImprovement b0 _type)) pre pb =
        State.OnImprovement best _type ∧
      (pre = [] → best = OnImprovement.reset _type) ∧
      (pre ≠ [] → (∃ e ∈ pre, best = e.transformed_y) ∧
        ∀ e ∈ pre, compare_objectives e.transformed_y best _type = false) ∧
      ∀ q : ℚ, compare_objectives (Double.finite q) best _type = true ↔
        ∀ e ∈ pre, compare_objectives (Double.finite q) e.transformed_y _type = true := by
  induction pre using List.reverseRecOn with
  | nil =>
    refine ⟨OnImprovement.reset _type, rfl, fun _ => rfl, fun h => absurd rfl h, fun q => ?_⟩
    simp [compare_objectives_finite_reset]
  | append_singleton pre y ih =>
    obtain ⟨best, hfeed, hnil, hcons, hiff⟩ :=
      ih (fun e he => hfin e (List.mem_append_left _ he))
    obtain ⟨qy, hqy⟩ := hfin y (by simp)
    rw [feed_append, hfeed]
    by_cases hc : compare_objectives y.transformed_y best _type = true
    · refine ⟨y.transformed_y, by simp [State.call, hc], fun h => absurd h (by simp),
        fun _ => ⟨⟨y, by simp, rfl⟩, fun e he => ?_⟩, fun q => ?_⟩
      · rcases List.mem_append.1 he with he | he
        · by_cases hp : pre = []
          · subst hp; simp at he
          · have hnot := (hcons hp).2 e he
            rw [Bool.eq_false_iff]
            intro hey
            rw [compare_objectives_trans _ _ _ _ hey hc] at hnot
            exact Bool.noConfusion hnot
        · rw [List.mem_singleton.1 he]
          exact compare_objectives_self _ _
      · constructor
        · intro hq e he
          rcases List.mem_append.1 he with he | he
          · exact (hiff q).1 (compare_objectives_trans _ _ _ _ hq hc) e he
          · rw [List.mem_singleton.1 he]; exact hq
        · intro hall
          exact hall y (by simp)
    · have hc' : compare_objectives y.transformed_y best _type = false := by
        simpa using hc
      have hp : pre ≠ [] := by
        intro hp
        rw [hnil hp, hqy, compare_objectives_finite_reset] at hc'
        exact Bool.noConfusion hc'
      refine ⟨best, by simp [State.call, hc'], fun h => absurd h (by simp),
        fun _ => ⟨?_, fun e he => ?_⟩, fun q => ?_⟩
      · obtain ⟨e, he, hbe⟩ := (hcons hp).1
        exact ⟨e, List.mem_append_left _ he, hbe⟩
      · rcases List.mem_append.1 he with he | he
        · exact (hcons hp).2 e he
        · rw [List.mem_singleton.1 he]; exact hc'
      · constructor
        · intro hq e he
          rcases List.mem_append.1 he with he | he
          · exact (hiff q).1 hq e he
          · rw [List.mem_singleton.1 he, hqy]
            rw [hqy] at hc'
            exact compare_objectives_of_not_better qy q best _type hc' hq
        · intro hall
          exact (hiff q).2 (fun e he => hall e (List.mem_append_left _ he))

/-! ## The claims -/

/-- C1, as stated, fails when members share an object: with `imp` an `OnImprovement`
(minimization, best = +infinity) and the value 1, the set `Any{All{imp, Any{}}, imp}`
returns false (the inner `All` makes `imp` record 1, then fails on the empty `Any`;
`imp` itself then sees 1 < 1), although its member `imp`, evaluated in its current
state, returns true. -/
theorem C1_Any_shared_object_counterexample :
    (Trigger.call
        (Trigger.Any [Trigger.All [Trigger.object 0, Trigger.Any []], Trigger.object 0])
        (fun _ => State.OnImprovement Double.infinity OptimizationType.Minimization)
        ⟨1, Double.finite 1, Double.finite 1, Double.finite 1, Double.finite 1⟩
        ⟨1, 1, 2, OptimizationType.Minimization⟩).1 = false ∧
      ∃ t ∈ [Trigger.All [Trigger.object 0, Trigger.Any []], Trigger.object 0],
        (Trigger.call t
          (fun _ => State.OnImprovement Double.infinity OptimizationType.Minimization)
          ⟨1, Double.finite 1, Double.finite 1, Double.finite 1, Double.finite 1⟩
          ⟨1, 1, 2, OptimizationType.Minimization⟩).1 = true :=
  ⟨by decide, Trigger.object 0, by simp, by decide⟩

/-- C1, amended: for every list of member triggers no two of which share an object, every
memory, snapshot and problem, `Any::operator()` returns true if and only if at least
one member, evaluated in its current state (the memory at the call) on that pair,
returns true. -/
theorem C1_Any_call_iff (ts : List Trigger) (m : Memory) (log_info : Info) (pb_info : MetaData)
    (h : ts.Pairwise Trigger.apart) :
    (Trigger.call (Trigger.Any ts) m log_info pb_info).1 = true ↔
      ∃ t ∈ ts, (Trigger.call t m log_info pb_info).1 = true := by
  simp only [Trigger.call]
  induction ts generalizing m with
  | nil => simp [Trigger.any_loop]
  | cons t ts ih =>
    rw [List.pairwise_cons] at h
    simp only [Trigger.any_loop, List.mem_cons, exists_eq_or_imp]
    by_cases ht : (Trigger.call t m log_info pb_info).1 = true
    · simp [ht]
    · simp only [ht, Bool.false_eq_true, if_false, false_or]
      rw [ih _ h.2]
      constructor
      · rintro ⟨u, hu, hcu⟩
        exact ⟨u, hu, by
          rw [← Trigger.call_after_apart t u m log_info pb_info (h.1 u hu)]; exact hcu⟩
      · rintro ⟨u, hu, hcu⟩
        exact ⟨u, hu, by
          rw [Trigger.call_after_apart t u m log_info pb_info (h.1 u hu)]; exact hcu⟩

/-- C1, amended, at a set of an `OnImprovement` that does not fire (best 0, value 1) and
an `Always`: two distinct objects. -/
theorem C1_Any_call_iff_witness :
    [Trigger.object 0, Trigger.object 1].Pairwise Trigger.apart ∧
    ((Trigger.call (Trigger.Any [Trigger.object 0, Trigger.object 1])
        (fun a => if a = 0 then
          State.OnImprovement (Double.finite 0) OptimizationType.Minimization
          else State.Always)
        ⟨1, Double.finite 1, Double.finite 1, Double.finite 0, Double.finite 0⟩
        ⟨1, 1, 2, OptimizationType.Minimization⟩).1 = true ↔
      ∃ t ∈ [Trigger.object 0, Trigger.object 1],
        (Trigger.call t
          (fun a => if a = 0 then
            State.OnImprovement (Double.finite 0) OptimizationType.Minimization
            else State.Always)
          ⟨1, Double.finite 1, Double.finite 1, Double.finite 0, Double.finite 0⟩
          ⟨1, 1, 2, OptimizationType.Minimization⟩).1 = true) :=
  ⟨by decide, C1_Any_call_iff _ _ _ _ (by decide)⟩

/-- C2, as stated, fails when members share an object: with `imp` an `OnImprovement`
(minimization, best = +infinity) and the value 1, the set `All{imp, imp}` returns false
(the first call records 1, the second sees 1 < 1), although every member, evaluated in
its current state, returns true. -/
theorem C2_All_shared_object_counterexample :
    (Trigger.call (Trigger.All [Trigger.object 0, Trigger.object 0])
        (fun _ => State.OnImprovement Double.infinity OptimizationType.Minimization)
        ⟨1, Double.finite 1, Double.finite 1, Double.finite 1, Double.finite 1⟩
        ⟨1, 1, 2, OptimizationType.Minimization⟩).1 = false ∧
      ∀ t ∈ [Trigger.object 0, Trigger.object 0],
        (Trigger.call t
          (fun _ => State.OnImprovement Double.infinity OptimizationType.Minimization)
          ⟨1, Double.finite 1, Double.finite 1, Double.finite 1, Double.finite 1⟩
          ⟨1, 1, 2, OptimizationType.Minimization⟩).1 = true :=
  ⟨by decide, by
    intro t ht
    simp only [List.mem_cons, List.mem_singleton, or_self, List.not_mem_nil, or_false] at ht
    subst ht; decide⟩

/-- C2, amended: for every list of member triggers no two of which share an object, every
memory, snapshot and problem, `All::operator()` returns true if and only if every
member, evaluated in its current state (the memory at the call) on that pair, returns
true. -/
theorem C2_All_call_iff (ts : List Trigger) (m : Memory) (log_info : Info) (pb_info : MetaData)
    (h : ts.Pairwise Trigger.apart) :
    (Trigger.call (Trigger.All ts) m log_info pb_info).1 = true ↔
      ∀ t ∈ ts, (Trigger.call t m log_info pb_info).1 = true := by
  simp only [Trigger.call]
  induction ts generalizing m with
  | nil => simp [Trigger.all_loop]
  | cons t ts ih =>
    rw [List.pairwise_cons] at h
    simp only [Trigger.all_loop, List.mem_cons, forall_eq_or_imp]
    by_cases ht : (Trigger.call t m log_info pb_info).1 = true
    · simp only [ht, Bool.not_true, Bool.false_eq_true, if_false, true_and]
      rw [ih _ h.2]
      constructor
      · intro hall u hu
        rw [← Trigger.call_after_apart t u m log_info pb_info (h.1 u hu)]; exact hall u hu
      · intro hall u hu
        rw [Trigger.call_after_apart t u m log_info pb_info (h.1 u hu)]; exact hall u hu
    · simp [ht]

/-- C2, amended, at a set of an `OnImprovement` that fires (best +infinity, value 1) and
an `Always`: two distinct objects. -/
theorem C2_All_call_iff_witness :
    [Trigger.object 0, Trigger.object 1].Pairwise Trigger.apart ∧
    ((Trigger.call (Trigger.All [Trigger.object 0, Trigger.object 1])
        (fun a => if a = 0 then
          State.OnImprovement Double.infinity OptimizationType.Minimization
          else State.Always)
        ⟨1, Double.finite 1, Double.finite 1, Double.finite 1, Double.finite 1⟩
        ⟨1, 1, 2, OptimizationType.Minimization⟩).1 = true ↔
      ∀ t ∈ [Trigger.object 0, Trigger.object 1],
        (Trigger.call t
          (fun a => if a = 0 then
            State.OnImprovement Double.infinity OptimizationType.Minimization
            else State.Always)
          ⟨1, Double.finite 1, Double.finite 1, Double.finite 1, Double.finite 1⟩
          ⟨1, 1, 2, OptimizationType.Minimization⟩).1 = true) :=
  ⟨by decide, C2_All_call_iff _ _ _ _ (by decide)⟩

/-- C3: for every `OnImprovement` with held best `b` and every snapshot with transformed
value `y`, `operator()` returns true if and only if `y < b` (minimization),
respectively `y > b` (maximization); after the call the held best is `y` when it
returned true and still `b` when it returned false. -/
theorem C3_OnImprovement_call (b : Double) (_type : OptimizationType) (log_info : Info)
    (pb_info : MetaData) :
    ((State.call (State.OnImprovement b _type) log_info pb_info).1 = true ↔
      (match _type with
        | OptimizationType.Minimization => Double.lt log_info.transformed_y b = true
        | OptimizationType.Maximization => Double.gt log_info.transformed_y b = true)) ∧
    (State.call (State.OnImprovement b _type) log_info pb_info).2 =
      State.OnImprovement
        (if (State.call (State.OnImprovement b _type) log_info pb_info).1
          then log_info.transformed_y else b) _type := by
  cases _type <;>
    by_cases hc : Double.lt log_info.transformed_y b = true <;>
    by_cases hd : Double.gt log_info.transformed_y b = true <;>
    simp [State.call, compare_objectives, hc, hd]

/-- C4: on a logger that is not attached to a problem (`_problem` is null), `log` fails,
by the failed `assert` in a Debug build and by the thrown `std::runtime_error` in a
Release build; the state at the failure is the state at the call: no trigger was
evaluated and the handler `call` was not called. -/
theorem C4_log_unattached_fails {α : Type} (ndebug : Bool) (call : Info → α → α) (w : World α)
    (log_info : Info) (h : w.logger._problem = none) :
    (World.log ndebug call w log_info).failure =
        some (if ndebug then
          Failure.runtime_error "Logger has not been attached to a problem."
          else Failure.assertion) ∧
      (World.log ndebug call w log_info).state = w := by
  cases ndebug <;> simp [World.log, assert_fails, h]

/-- C4 at the logger built by `Logger()`, in a Release build, the handler counting its
calls. -/
theorem C4_log_unattached_fails_witness :
    (World.mk Logger.new_empty (fun _ => State.Always) 0).logger._problem = none ∧
    ((World.log true (fun _ (n : Nat) => n + 1)
          (World.mk Logger.new_empty (fun _ => State.Always) 0)
          ⟨1, Double.finite 1, Double.finite 1, Double.finite 1, Double.finite 1⟩).failure =
        some (Failure.runtime_error "Logger has not been attached to a problem.") ∧
      (World.log true (fun _ (n : Nat) => n + 1)
          (World.mk Logger.new_empty (fun _ => State.Always) 0)
          ⟨1, Double.finite 1, Double.finite 1, Double.finite 1, Double.finite 1⟩).state =
        World.mk Logger.new_empty (fun _ => State.Always) 0) :=
  ⟨rfl, C4_log_unattached_fails true (fun _ (n : Nat) => n + 1)
    (World.mk Logger.new_empty (fun _ => State.Always) 0)
    ⟨1, Double.finite 1, Double.finite 1, Double.finite 1, Double.finite 1⟩ rfl⟩

/-- C5, as stated, fails in a Debug build on a logger without properties: the logger is
attached, its trigger set `Any{always}` returns true on the snapshot, and `log` stops at
`assert(_properties.size() > 0)` without calling the handler (the count of calls
stays 0). -/
theorem C5_log_debug_empty_registry_counterexample :
    (Set.call (Logger.triggers ⟨[Trigger.object 0], none, some ⟨1, 1, 2,
          OptimizationType.Minimization⟩, []⟩) (fun _ => State.Always)
        ⟨1, Double.finite 1, Double.finite 1, Double.finite 1, Double.finite 1⟩
        ⟨1, 1, 2, OptimizationType.Minimization⟩).1 = true ∧
    (World.log false (fun _ (n : Nat) => n + 1)
        (World.mk ⟨[Trigger.object 0], none, some ⟨1, 1, 2, OptimizationType.Minimization⟩, []⟩
          (fun _ => State.Always) 0)
        ⟨1, Double.finite 1, Double.finite 1, Double.finite 1, Double.finite 1⟩).failure =
      some Failure.assertion ∧
    (World.log false (fun _ (n : Nat) => n + 1)
        (World.mk ⟨[Trigger.object 0], none, some ⟨1, 1, 2, OptimizationType.Minimization⟩, []⟩
          (fun _ => State.Always) 0)
        ⟨1, Double.finite 1, Double.finite 1, Double.finite 1, Double.finite 1⟩).state.data = 0 :=
  ⟨by decide, by decide, by decide⟩

/-- C5, amended: on a logger attached to a problem, in a Release build or when neither
the property registry nor the trigger set is empty, `log` returns normally, having
evaluated the trigger set on the snapshot and the bound problem and called the handler
once when the set returned true and not at all when it returned false; in a Debug
build with an empty registry or an empty trigger set it stops at the failed `assert`
with nothing evaluated; and a logger built from a list of triggers has the `Any` of that
list as trigger set. -/
theorem C5_log_attached {α : Type} (ndebug : Bool) (call : Info → α → α) (w : World α)
    (log_info : Info) (pb : MetaData) (h : w.logger._problem = some pb) :
    ((ndebug = true ∨
        (w.logger._properties ≠ [] ∧ 0 < Set.size (Logger.triggers w.logger))) →
      (World.log ndebug call w log_info).failure = none ∧
      (World.log ndebug call w log_info).state.logger = w.logger ∧
      (World.log ndebug call w log_info).state.memory =
        (Set.call (Logger.triggers w.logger) w.memory log_info pb).2 ∧
      (World.log ndebug call w log_info).state.data =
        if (Set.call (Logger.triggers w.logger) w.memory log_info pb).1
          then call log_info w.data else w.data) ∧
    ((ndebug = false ∧
        (w.logger._properties = [] ∨ Set.size (Logger.triggers w.logger) = 0)) →
      (World.log ndebug call w log_info).failure = some Failure.assertion ∧
      (World.log ndebug call w log_info).state = w) ∧
    ∀ (triggers : List Trigger) (properties : List Property),
      Logger.triggers (Logger.new_any ndebug triggers properties).state = Set.Any triggers := by
  refine ⟨?_, ?_, ?_⟩
  · rintro (hn | ⟨hp, ht⟩)
    · subst hn
      by_cases hc : (Set.call (Logger.triggers w.logger) w.memory log_info pb).1 = true <;>
        simp [World.log, assert_fails, h, hc]
    · have hp' : 0 < w.logger._properties.length := List.length_pos.2 hp
      by_cases hc : (Set.call (Logger.triggers w.logger) w.memory log_info pb).1 = true <;>
        simp [World.log, assert_fails, h, hc, hp', ht]
  · rintro ⟨hn, hp | ht⟩
    · subst hn
      simp [World.log, assert_fails, h, hp]
    · subst hn
      by_cases hp : w.logger._properties.length = 0 <;>
        simp [World.log, assert_fails, h, hp, ht]
  · intro triggers properties
    unfold Logger.new_any
    dsimp only
    split <;> rfl

/-- C5, amended, in a Debug build at a logger attached to a minimization problem, with
one property and the trigger set `Any{imp, always}`, `imp` an `OnImprovement` that does
not fire (best 0, value 1); the handler counts its calls. -/
theorem C5_log_attached_witness :
    (World.mk ⟨[Trigger.object 0, Trigger.object 1], none,
        some ⟨1, 1, 2, OptimizationType.Minimization⟩, [("y", ⟨"y", 7⟩)]⟩
      (fun a => if a = 0 then State.OnImprovement (Double.finite 0)
        OptimizationType.Minimization else State.Always) 0).logger._problem =
      some ⟨1, 1, 2, OptimizationType.Minimization⟩ ∧
    (World.log false (fun _ (n : Nat) => n + 1)
      (World.mk ⟨[Trigger.object 0, Trigger.object 1], none,
          some ⟨1, 1, 2, OptimizationType.Minimization⟩, [("y", ⟨"y", 7⟩)]⟩
        (fun a => if a = 0 then State.OnImprovement (Double.finite 0)
          OptimizationType.Minimization else State.Always) 0)
      ⟨1, Double.finite 1, Double.finite 1, Double.finite 0, Double.finite 0⟩).state.data = 1 :=
  ⟨rfl, ((C5_log_attached false (fun _ (n : Nat) => n + 1)
      (World.mk ⟨[Trigger.object 0, Trigger.object 1], none,
          some ⟨1, 1, 2, OptimizationType.Minimization⟩, [("y", ⟨"y", 7⟩)]⟩
        (fun a => if a = 0 then State.OnImprovement (Double.finite 0)
          OptimizationType.Minimization else State.Always) 0)
      ⟨1, Double.finite 1, Double.finite 1, Double.finite 0, Double.finite 0⟩
      ⟨1, 1, 2, OptimizationType.Minimization⟩ rfl).1
        (Or.inr ⟨by decide, by decide⟩)).2.2.2⟩

/-- C6, the code at the failing input: the registry holds a property named `x`, and
`watch` is called with another property named `x`.  In a Release build `watch` returns
normally and the entry under `x` is the new property; in a Debug build the `assert`
fails. -/
theorem C6_watch_duplicate_release :
    (Logger.watch true ⟨[], none, none, [("x", ⟨"x", 0⟩)]⟩ ⟨"x", 1⟩).failure = none ∧
    (Logger.watch true ⟨[], none, none, [("x", ⟨"x", 0⟩)]⟩ ⟨"x", 1⟩).state._properties =
      [("x", ⟨"x", 1⟩)] ∧
    (Logger.watch false ⟨[], none, none, [("x", ⟨"x", 0⟩)]⟩ ⟨"x", 1⟩).failure =
      some Failure.assertion := by
  decide

/-- C7: in every state reached from a constructor by calls of `watch`,
`attach_problem`, `log` and `reset`, in either build, no two entries of the registry
have the same property name, every entry is stored under the name of its property, and
a name is the key of at most one property. -/
theorem C7_registry_names_unique {α : Type} (ndebug : Bool) (call : Info → α → α)
    (w : World α) (h : Reachable ndebug call w) :
    (w.logger._properties.map (fun e => e.2.name)).Nodup ∧
    (∀ e ∈ w.logger._properties, e.1 = e.2.name) ∧
    ∀ (n : String) (p q : Property),
      (n, p) ∈ w.logger._properties → (n, q) ∈ w.logger._properties → p = q := by
  have hok : registry_ok w.logger._properties := by
    induction h with
    | new_any triggers properties m d _ =>
      have := registry_ok_map_properties properties [] ⟨List.nodup_nil, by simp⟩
      unfold Logger.new_any
      dsimp only
      split <;> exact this
    | new_set triggers properties m d _ =>
      have := registry_ok_map_properties properties [] ⟨List.nodup_nil, by simp⟩
      unfold Logger.new_set
      dsimp only
      split <;> exact this
    | new_empty m d => exact ⟨List.nodup_nil, by simp [Logger.new_empty]⟩
    | watch w property _ _ ih => exact registry_ok_watch ndebug w.logger property ih
    | attach_problem w problem _ ih => exact ih
    | log w log_info _ ih =>
      unfold World.log
      split
      · exact ih
      · split
        · exact ih
        · split
          · exact ih
          · split
            · exact ih
            · split <;> exact ih
    | reset w _ ih => exact ih
  refine ⟨?_, hok.2, registry_ok_unique _ hok⟩
  have hmap : w.logger._properties.map (fun e => e.2.name) =
      w.logger._properties.map Prod.fst :=
    List.map_congr_left (fun e he => (hok.2 e he).symm)
  rw [hmap]
  exact hok.1

/-- C7 at the state reached, in a Release build, from `Logger()` by watching a property
named `x`, watching a second property named `x`, attaching a problem and a reset. -/
theorem C7_registry_names_unique_witness :
    Reachable true (fun _ (n : Nat) => n + 1)
      (World.reset (World.attach_problem
        (World.watch true
          (World.watch true (World.mk Logger.new_empty (fun _ => State.Always) 0)
            ⟨"x", 0⟩).state
          ⟨"x", 1⟩).state
        ⟨1, 1, 2, OptimizationType.Minimization⟩)) ∧
    ∀ (n : String) (p q : Property),
      (n, p) ∈ (World.reset (World.attach_problem
        (World.watch true
          (World.watch true (World.mk Logger.new_empty (fun _ => State.Always) 0)
            ⟨"x", 0⟩).state
          ⟨"x", 1⟩).state
        ⟨1, 1, 2, OptimizationType.Minimization⟩)).logger._properties →
      (n, q) ∈ (World.reset (World.attach_problem
        (World.watch true
          (World.watch true (World.mk Logger.new_empty (fun _ => State.Always) 0)
            ⟨"x", 0⟩).state
          ⟨"x", 1⟩).state
        ⟨1, 1, 2, OptimizationType.Minimization⟩)).logger._properties → p = q :=
  ⟨Reachable.reset _ (Reachable.attach_problem _ _
      (Reachable.watch _ _ (Reachable.watch _ _ (Reachable.new_empty _ _) (by decide))
        (by decide))),
    (C7_registry_names_unique true (fun _ (n : Nat) => n + 1) _
      (Reachable.reset _ (Reachable.attach_problem _ _
        (Reachable.watch _ _ (Reachable.watch _ _ (Reachable.new_empty _ _) (by decide))
          (by decide))))).2.2⟩

/-- C8: `Logger::reset` resets every object reached from the trigger set, be the set an
`Any` or an `All`, whatever the order of the members and the state of the objects:
afterwards the object holds what its own `reset` leaves, and an `OnImprovement` holds
plus infinity (minimization) or minus infinity (maximization) as best. -/
theorem C8_reset_every_member {α : Type} (w : World α) (a : Nat)
    (h : a ∈ Trigger.addresses_list (Set._triggers (Logger.triggers w.logger))) :
    (World.reset w).memory a = State.reset (w.memory a) ∧
    ∀ (b : Double) (_type : OptimizationType), w.memory a = State.OnImprovement b _type →
      (World.reset w).memory a =
        State.OnImprovement
          (match _type with
            | OptimizationType.Minimization => Double.infinity
            | OptimizationType.Maximization => Double.neg_infinity) _type := by
  have h1 : (World.reset w).memory a = State.reset (w.memory a) := by
    simp only [World.reset, Set.reset]
    rw [Trigger.reset_loop_apply, if_pos h]
  refine ⟨h1, fun b _type hb => ?_⟩
  rw [h1, hb]
  cases _type <;> rfl

/-- C8 at a logger holding the set `All{always, Any{imp}}`, `imp` (at address 1) an
`OnImprovement` for maximization with best 5. -/
theorem C8_reset_every_member_witness :
    1 ∈ Trigger.addresses_list (Set._triggers (Logger.triggers
      ⟨[], some (Set.All [Trigger.object 0, Trigger.Any [Trigger.object 1]]), none, []⟩)) ∧
    (World.reset (World.mk
      ⟨[], some (Set.All [Trigger.object 0, Trigger.Any [Trigger.object 1]]), none, []⟩
      (fun a => if a = 1 then State.OnImprovement (Double.finite 5)
        OptimizationType.Maximization else State.Always) 0)).memory 1 =
      State.OnImprovement Double.neg_infinity OptimizationType.Maximization :=
  ⟨by decide, (C8_reset_every_member (World.mk
      ⟨[], some (Set.All [Trigger.object 0, Trigger.Any [Trigger.object 1]]), none, []⟩
      (fun a => if a = 1 then State.OnImprovement (Double.finite 5)
        OptimizationType.Maximization else State.Always) 0) 1 (by decide)).2
          (Double.finite 5) OptimizationType.Maximization rfl⟩

/-- C9: `Logger::reset` changes nothing but the objects reached from the trigger set: the
data members of the logger (among them the bound problem and the registry) are the
same, the state of the concrete logger is the same, every other object in memory is the
same, and a `log` that follows fails if and only if it would have failed before the
reset (an attached logger does not raise the unattached error). -/
theorem C9_reset_frame {α : Type} (ndebug : Bool) (call : Info → α → α) (w : World α)
    (log_info : Info) :
    (World.reset w).logger = w.logger ∧
    (World.reset w).data = w.data ∧
    (∀ a, a ∉ Trigger.addresses_list (Set._triggers (Logger.triggers w.logger)) →
      (World.reset w).memory a = w.memory a) ∧
    (World.log ndebug call (World.reset w) log_info).failure =
      (World.log ndebug call w log_info).failure := by
  refine ⟨rfl, rfl, fun a ha => ?_, ?_⟩
  · simp only [World.reset, Set.reset]
    rw [Trigger.reset_loop_apply, if_neg ha]
  · simp only [World.log, World.reset]
    split
    · rfl
    · split
      · rfl
      · split
        · rfl
        · split
          · rfl
          · split <;> split <;> rfl

/-- C9 at an attached logger holding the set `Any{imp}`, `imp` at address 0, in a Debug
build: the `OnImprovement` at address 1, which the set does not reach, keeps its best 5
through the reset. -/
theorem C9_reset_frame_witness :
    1 ∉ Trigger.addresses_list (Set._triggers (Logger.triggers
      ⟨[Trigger.object 0], none, some ⟨1, 1, 2, OptimizationType.Minimization⟩,
        [("y", ⟨"y", 7⟩)]⟩)) ∧
    (World.reset (World.mk
      ⟨[Trigger.object 0], none, some ⟨1, 1, 2, OptimizationType.Minimization⟩,
        [("y", ⟨"y", 7⟩)]⟩
      (fun _ => State.OnImprovement (Double.finite 5) OptimizationType.Minimization)
      0)).memory 1 =
      State.OnImprovement (Double.finite 5) OptimizationType.Minimization :=
  ⟨by decide, (C9_reset_frame false (fun _ (n : Nat) => n + 1) (World.mk
      ⟨[Trigger.object 0], none, some ⟨1, 1, 2, OptimizationType.Minimization⟩,
        [("y", ⟨"y", 7⟩)]⟩
      (fun _ => State.OnImprovement (Double.finite 5) OptimizationType.Minimization) 0)
      ⟨1, Double.finite 1, Double.finite 1, Double.finite 1, Double.finite 1⟩).2.2.1 1
        (by decide)⟩

/-- C10: `attach_problem(d)` changes the bound problem, which becomes `d`, and nothing
else (the trigger set, the trigger objects, the registry and the state of the concrete
logger are the same); attaching `d1` and then `d2` gives the same state as attaching
`d2`, and attaching `d` twice the same state as attaching it once. -/
theorem C10_attach_problem {α : Type} (w : World α) (d d1 d2 : MetaData) :
    (World.attach_problem w d).logger._problem = some d ∧
    (World.attach_problem w d).logger._any = w.logger._any ∧
    (World.attach_problem w d).logger._triggers = w.logger._triggers ∧
    (World.attach_problem w d).logger._properties = w.logger._properties ∧
    (World.attach_problem w d).memory = w.memory ∧
    (World.attach_problem w d).data = w.data ∧
    World.attach_problem (World.attach_problem w d1) d2 = World.attach_problem w d2 ∧
    World.attach_problem (World.attach_problem w d) d = World.attach_problem w d :=
  ⟨rfl, rfl, rfl, rfl, rfl, rfl, rfl, rfl⟩

/-- C11: for both optimization types, an `OnImprovement` holds plus infinity
(minimization) or minus infinity (maximization) as best right after its construction
and right after a `reset()` from any state, a reset before the first evaluation
included; evaluating a snapshot with a finite transformed value then returns true. -/
theorem C11_OnImprovement_initial_best (pb_info pb : MetaData) (b : Double)
    (_type : OptimizationType) (log_info : Info) (q : ℚ) :
    OnImprovement.new pb_info =
      State.OnImprovement
        (match pb_info.optimization_type with
          | OptimizationType.Minimization => Double.infinity
          | OptimizationType.Maximization => Double.neg_infinity)
        pb_info.optimization_type ∧
    State.reset (State.OnImprovement b _type) =
      State.OnImprovement
        (match _type with
          | OptimizationType.Minimization => Double.infinity
          | OptimizationType.Maximization => Double.neg_infinity) _type ∧
    State.reset (OnImprovement.new pb_info) = OnImprovement.new pb_info ∧
    (State.call (OnImprovement.new pb_info)
      { log_info with transformed_y := Double.finite q } pb).1 = true ∧
    (State.call (State.reset (State.OnImprovement b _type))
      { log_info with transformed_y := Double.finite q } pb).1 = true := by
  obtain ⟨id, inst, n, ty⟩ := pb_info
  cases ty <;> cases _type <;>
    simp [OnImprovement.new, OnImprovement.reset, State.reset, State.call,
      compare_objectives, Double.gt, Double.lt]

/-- C12: for every `OnImprovement`, whatever its held best and its optimization type, and
every transformed value `v`: after the evaluation of a snapshot of value `v`, the
evaluation of a snapshot of the same value returns false. -/
theorem C12_OnImprovement_same_value_twice (b : Double) (_type : OptimizationType)
    (log_info log_info' : Info) (pb pb' : MetaData) :
    (State.call (State.call (State.OnImprovement b _type) log_info pb).2
      { log_info' with transformed_y := log_info.transformed_y } pb').1 = false := by
  by_cases hc : compare_objectives log_info.transformed_y b _type = true
  · simp [State.call, hc, compare_objectives_self]
  · simp [State.call, hc]

/-- C13: on every snapshot and problem, and whatever the memory, an `Any` without members
returns false and an `All` without members returns true; neither changes the memory. -/
theorem C13_zero_members (m : Memory) (log_info : Info) (pb_info : MetaData) :
    Trigger.call (Trigger.Any []) m log_info pb_info = (false, m) ∧
    Trigger.call (Trigger.All []) m log_info pb_info = (true, m) ∧
    (Set.call (Set.Any []) m log_info pb_info).1 = false ∧
    (Set.call (Set.All []) m log_info pb_info).1 = true := by
  simp [Set.call, Set.trigger, Trigger.call, Trigger.any_loop, Trigger.all_loop]

/-- C14, the code at the failing input: `all` is given `always` and an `OnImprovement`
that does not fire on the snapshot (minimization, best 0, value 1).  The combinator
built by `return Any(triggers);` fires, although not all the given triggers fire; an
`All` of the same triggers does not fire. -/
theorem C14_all_builds_Any :
    (Set.call (trigger.all [Trigger.object 0, Trigger.object 1])
      (fun a => if a = 0 then State.Always
        else State.OnImprovement (Double.finite 0) OptimizationType.Minimization)
      ⟨1, Double.finite 1, Double.finite 1, Double.finite 0, Double.finite 0⟩
      ⟨1, 1, 2, OptimizationType.Minimization⟩).1 = true ∧
    (Trigger.call (Trigger.object 1)
      (fun a => if a = 0 then State.Always
        else State.OnImprovement (Double.finite 0) OptimizationType.Minimization)
      ⟨1, Double.finite 1, Double.finite 1, Double.finite 0, Double.finite 0⟩
      ⟨1, 1, 2, OptimizationType.Minimization⟩).1 = false ∧
    (Set.call (Set.All [Trigger.object 0, Trigger.object 1])
      (fun a => if a = 0 then State.Always
        else State.OnImprovement (Double.finite 0) OptimizationType.Minimization)
      ⟨1, Double.finite 1, Double.finite 1, Double.finite 0, Double.finite 0⟩
      ⟨1, 1, 2, OptimizationType.Minimization⟩).1 = false := by
  decide

/-- C15, as stated, fails in a Debug build: the logger built by `Logger()`, given one
property by `watch` and attached to a problem, has a trigger set without members, and
`log` stops at `assert(_triggers.size() > 0)`. -/
theorem C15_log_debug_empty_set_counterexample :
    Set.size (Logger.triggers (World.attach_problem
      (World.watch false (World.mk Logger.new_empty (fun _ => State.Always) 0)
        ⟨"y", 7⟩).state
      ⟨1, 1, 2, OptimizationType.Minimization⟩).logger) = 0 ∧
    (World.log false (fun _ (n : Nat) => n + 1)
      (World.attach_problem
        (World.watch false (World.mk Logger.new_empty (fun _ => State.Always) 0)
          ⟨"y", 7⟩).state
        ⟨1, 1, 2, OptimizationType.Minimization⟩)
      ⟨1, Double.finite 1, Double.finite 1, Double.finite 1, Double.finite 1⟩).failure =
      some Failure.assertion := by
  decide

/-- C15, amended: for a logger attached to a problem whose trigger set has no member, in a
Release build `log` returns normally, with the memory unchanged and the vacuous result
of the set: the handler is not called for an `Any` (the default set) and is called once
for an `All`; in a Debug build `log` stops at a failed `assert`, with nothing changed. -/
theorem C15_log_empty_trigger_set {α : Type} (ndebug : Bool) (call : Info → α → α)
    (w : World α) (log_info : Info) (pb : MetaData) (h : w.logger._problem = some pb)
    (h0 : Set.size (Logger.triggers w.logger) = 0) :
    (ndebug = true →
      (World.log ndebug call w log_info).failure = none ∧
      (World.log ndebug call w log_info).state.logger = w.logger ∧
      (World.log ndebug call w log_info).state.memory = w.memory ∧
      (World.log ndebug call w log_info).state.data =
        match Logger.triggers w.logger with
        | Set.Any _ => w.data
        | Set.All _ => call log_info w.data) ∧
    (ndebug = false →
      (World.log ndebug call w log_info).failure = some Failure.assertion ∧
      (World.log ndebug call w log_info).state = w) := by
  constructor
  · intro hn
    subst hn
    cases hT : Logger.triggers w.logger with
    | Any ts =>
      have hts : ts = [] := by
        rw [hT] at h0; exact List.length_eq_zero.1 h0
      subst hts
      simp [World.log, assert_fails, h, hT, Set.call, Set.trigger, Trigger.call,
        Trigger.any_loop]
    | All ts =>
      have hts : ts = [] := by
        rw [hT] at h0; exact List.length_eq_zero.1 h0
      subst hts
      simp [World.log, assert_fails, h, hT, Set.call, Set.trigger, Trigger.call,
        Trigger.all_loop]
  · intro hn
    subst hn
    by_cases hp : w.logger._properties.length = 0 <;>
      simp [World.log, assert_fails, h, hp, h0]

/-- C15, amended, in a Release build at the logger built by `Logger()` and attached to a
problem: `log` returns normally and the count of handler calls stays 0. -/
theorem C15_log_empty_trigger_set_witness :
    (World.attach_problem (World.mk Logger.new_empty (fun _ => State.Always) 0)
      ⟨1, 1, 2, OptimizationType.Minimization⟩).logger._problem =
      some ⟨1, 1, 2, OptimizationType.Minimization⟩ ∧
    Set.size (Logger.triggers (World.attach_problem
      (World.mk Logger.new_empty (fun _ => State.Always) 0)
      ⟨1, 1, 2, OptimizationType.Minimization⟩).logger) = 0 ∧
    (World.log true (fun _ (n : Nat) => n + 1)
      (World.attach_problem (World.mk Logger.new_empty (fun _ => State.Always) 0)
        ⟨1, 1, 2, OptimizationType.Minimization⟩)
      ⟨1, Double.finite 1, Double.finite 1, Double.finite 1, Double.finite 1⟩).failure =
      none ∧
    (World.log true (fun _ (n : Nat) => n + 1)
      (World.attach_problem (World.mk Logger.new_empty (fun _ => State.Always) 0)
        ⟨1, 1, 2, OptimizationType.Minimization⟩)
      ⟨1, Double.finite 1, Double.finite 1, Double.finite 1, Double.finite 1⟩).state.data =
      0 :=
  ⟨rfl, rfl,
    ((C15_log_empty_trigger_set true (fun _ (n : Nat) => n + 1)
      (World.attach_problem (World.mk Logger.new_empty (fun _ => State.Always) 0)
        ⟨1, 1, 2, OptimizationType.Minimization⟩)
      ⟨1, Double.finite 1, Double.finite 1, Double.finite 1, Double.finite 1⟩
      ⟨1, 1, 2, OptimizationType.Minimization⟩ rfl rfl).1 rfl).1,
    ((C15_log_empty_trigger_set true (fun _ (n : Nat) => n + 1)
      (World.attach_problem (World.mk Logger.new_empty (fun _ => State.Always) 0)
        ⟨1, 1, 2, OptimizationType.Minimization⟩)
      ⟨1, Double.finite 1, Double.finite 1, Double.finite 1, Double.finite 1⟩
      ⟨1, 1, 2, OptimizationType.Minimization⟩ rfl rfl).1 rfl).2.2.2⟩

/-- C16, the code at the failing input: a logger is constructed from a property list
holding two properties named `x`.  In a Debug and in a Release build, from a list of
triggers and from a `Set`, the constructor returns normally and the registry has the
single entry `x`, bound to the second property. -/
theorem C16_constructor_duplicate_names :
    (Logger.new_any false [Trigger.object 0] [⟨"x", 0⟩, ⟨"x", 1⟩]).failure = none ∧
    (Logger.new_any false [Trigger.object 0] [⟨"x", 0⟩, ⟨"x", 1⟩]).state._properties =
      [("x", ⟨"x", 1⟩)] ∧
    (Logger.new_any true [Trigger.object 0] [⟨"x", 0⟩, ⟨"x", 1⟩]).failure = none ∧
    (Logger.new_any true [Trigger.object 0] [⟨"x", 0⟩, ⟨"x", 1⟩]).state._properties =
      [("x", ⟨"x", 1⟩)] ∧
    (Logger.new_set false (Set.All [Trigger.object 0]) [⟨"x", 0⟩, ⟨"x", 1⟩]).failure = none ∧
    (Logger.new_set false (Set.All [Trigger.object 0])
      [⟨"x", 0⟩, ⟨"x", 1⟩]).state._properties = [("x", ⟨"x", 1⟩)] ∧
    (Logger.new_set true (Set.All [Trigger.object 0]) [⟨"x", 0⟩, ⟨"x", 1⟩]).failure = none := by
  decide

/-- C17, as stated, fails on the empty registry: no two of its properties share a name,
and `consistent_properties()` returns false. -/
theorem C17_consistent_properties_empty_counterexample :
    Logger.consistent_properties [] = false ∧
    (([] : List (String × Property)).map (fun e => e.2.name)).Nodup :=
  ⟨by decide, List.nodup_nil⟩

/-- C17, amended: for every registry, `consistent_properties()` returns true if and only if
the registry is not empty and no two registered properties share a name. -/
theorem C17_consistent_properties_iff (_properties : List (String × Property)) :
    Logger.consistent_properties _properties = true ↔
      _properties ≠ [] ∧ (_properties.map (fun e => e.2.name)).Nodup := by
  have hloop : ∀ reg : List (String × Property),
      Logger.consistent_loop reg = true ↔ (reg.map (fun e => e.2.name)).Nodup := by
    intro reg
    induction reg with
    | nil => simp [Logger.consistent_loop]
    | cons iw inext ih =>
      rw [List.map_cons, List.nodup_cons]
      unfold Logger.consistent_loop
      cases inext with
      | nil => simp
      | cons x rest =>
        simp only [List.isEmpty_cons, Bool.false_eq_true, if_false]
        by_cases hany : ((x :: rest).any fun rwp => iw.2.name == rwp.2.name) = true
        · simp only [hany, if_true, Bool.false_eq_true, false_iff, not_and]
          intro hnot
          obtain ⟨r, hr, hname⟩ := List.any_eq_true.1 hany
          exact absurd (List.mem_map.2 ⟨r, hr, (beq_iff_eq.1 hname).symm⟩) hnot
        · simp only [hany, Bool.false_eq_true, if_false]
          rw [ih]
          refine ⟨fun h => ⟨fun hmem => ?_, h⟩, fun h => h.2⟩
          obtain ⟨r, hr, hname⟩ := List.mem_map.1 hmem
          exact hany (List.any_eq_true.2 ⟨r, hr, beq_iff_eq.2 hname.symm⟩)
  unfold Logger.consistent_properties
  cases _properties with
  | nil => simp
  | cons x rest =>
    simp only [List.length_cons, Nat.le_zero_eq, Nat.add_one_ne_zero, if_false, ne_eq,
      not_false_eq_true, true_and, reduceCtorEq]
    exact hloop (x :: rest)

/-- C18: in every reachable state of a `Watcher`, in either build, `watch(p)` with a
property whose name is not registered returns normally; afterwards the name of `p`
resolves to `p`, every name registered before resolves to the same property as before,
and the registry has exactly one more entry. -/
theorem C18_watch_new_name {α : Type} (ndebug : Bool) (call : Info → α → α) (w : World α)
    (p : Property) (h : Reachable ndebug call w)
    (hnew : lookup p.name w.logger._properties = none) :
    (World.watch ndebug w p).failure = none ∧
    lookup p.name (World.watch ndebug w p).state.logger._properties = some p ∧
    (∀ (n : String) (q : Property), lookup n w.logger._properties = some q →
      lookup n (World.watch ndebug w p).state.logger._properties = some q) ∧
    (World.watch ndebug w p).state.logger._properties.length =
      w.logger._properties.length + 1 := by
  have hok := reachable_registry_ok ndebug call w h
  have hkey := lookup_none_key_ne _ _ hnew
  have hany : (w.logger._properties.any fun rwp => p.name == rwp.2.name) = false := by
    rw [Bool.eq_false_iff]
    intro hc
    obtain ⟨r, hr, hname⟩ := List.any_eq_true.1 hc
    exact hkey r hr ((hok.2 r hr).trans (beq_iff_eq.1 hname).symm)
  have hlen := length_insert_or_assign_of_lookup_none p.name p _ hnew
  have hcons : Logger.consistent_properties
      (insert_or_assign p.name p w.logger._properties) = true := by
    unfold Logger.consistent_properties
    rw [hlen, if_neg (by omega)]
    exact consistent_loop_of_nodup _
      (registry_ok_names _ (registry_ok_insert_or_assign p _ hok))
  have hfail : (Logger.watch ndebug w.logger p).failure = none := by
    simp [Logger.watch, assert_fails, hany, hcons]
  have hstate : (Logger.watch ndebug w.logger p).state._properties =
      insert_or_assign p.name p w.logger._properties := by
    simp [Logger.watch, assert_fails, hany, hcons]
  refine ⟨hfail, ?_, ?_, ?_⟩
  · simp only [World.watch, hstate]
    exact lookup_insert_or_assign_self _ _ _
  · intro n q hq
    simp only [World.watch, hstate]
    have hne : n ≠ p.name := by
      intro hc
      rw [hc, hnew] at hq
      exact Option.noConfusion hq
    rw [lookup_insert_or_assign_of_ne _ _ _ _ hne]
    exact hq
  · simp only [World.watch, hstate]
    exact hlen

/-- C18 in a Debug build at the logger built by `Logger()` that watches `x`: watching `y`
returns normally, `y` resolves to the new property and `x` to the one it had. -/
theorem C18_watch_new_name_witness :
    Reachable false (fun _ (n : Nat) => n + 1)
      (World.watch false (World.mk Logger.new_empty (fun _ => State.Always) 0)
        ⟨"x", 0⟩).state ∧
    lookup "y" (World.watch false (World.mk Logger.new_empty (fun _ => State.Always) 0)
        ⟨"x", 0⟩).state.logger._properties = none ∧
    (World.watch false
      (World.watch false (World.mk Logger.new_empty (fun _ => State.Always) 0)
        ⟨"x", 0⟩).state ⟨"y", 1⟩).failure = none ∧
    lookup "y" (World.watch false
      (World.watch false (World.mk Logger.new_empty (fun _ => State.Always) 0)
        ⟨"x", 0⟩).state ⟨"y", 1⟩).state.logger._properties = some ⟨"y", 1⟩ ∧
    lookup "x" (World.watch false
      (World.watch false (World.mk Logger.new_empty (fun _ => State.Always) 0)
        ⟨"x", 0⟩).state ⟨"y", 1⟩).state.logger._properties = some ⟨"x", 0⟩ :=
  ⟨Reachable.watch _ _ (Reachable.new_empty _ _) (by decide), by decide,
    (C18_watch_new_name false (fun _ (n : Nat) => n + 1)
      (World.watch false (World.mk Logger.new_empty (fun _ => State.Always) 0)
        ⟨"x", 0⟩).state ⟨"y", 1⟩
      (Reachable.watch _ _ (Reachable.new_empty _ _) (by decide)) (by decide)).1,
    (C18_watch_new_name false (fun _ (n : Nat) => n + 1)
      (World.watch false (World.mk Logger.new_empty (fun _ => State.Always) 0)
        ⟨"x", 0⟩).state ⟨"y", 1⟩
      (Reachable.watch _ _ (Reachable.new_empty _ _) (by decide)) (by decide)).2.1,
    (C18_watch_new_name false (fun _ (n : Nat) => n + 1)
      (World.watch false (World.mk Logger.new_empty (fun _ => State.Always) 0)
        ⟨"x", 0⟩).state ⟨"y", 1⟩
      (Reachable.watch _ _ (Reachable.new_empty _ _) (by decide)) (by decide)).2.2.1
        "x" ⟨"x", 0⟩ (by decide)⟩

/-- C19, as stated, fails when members share an object.  With `imp` an `OnImprovement`
(minimization, best +infinity) and the value 1: `Any{All{imp, Any{}}, imp}` returns
false and `Any{imp, All{imp, Any{}}}` returns true; `All{imp, Any{imp, always}}` returns
true and `All{Any{imp, always}, imp}` returns false. -/
theorem C19_member_order_shared_object_counterexample :
    [Trigger.All [Trigger.object 0, Trigger.Any []], Trigger.object 0].Perm
      [Trigger.object 0, Trigger.All [Trigger.object 0, Trigger.Any []]] ∧
    (Trigger.call
      (Trigger.Any [Trigger.All [Trigger.object 0, Trigger.Any []], Trigger.object 0])
      (fun _ => State.OnImprovement Double.infinity OptimizationType.Minimization)
      ⟨1, Double.finite 1, Double.finite 1, Double.finite 1, Double.finite 1⟩
      ⟨1, 1, 2, OptimizationType.Minimization⟩).1 = false ∧
    (Trigger.call
      (Trigger.Any [Trigger.object 0, Trigger.All [Trigger.object 0, Trigger.Any []]])
      (fun _ => State.OnImprovement Double.infinity OptimizationType.Minimization)
      ⟨1, Double.finite 1, Double.finite 1, Double.finite 1, Double.finite 1⟩
      ⟨1, 1, 2, OptimizationType.Minimization⟩).1 = true ∧
    [Trigger.object 0, Trigger.Any [Trigger.object 0, Trigger.object 1]].Perm
      [Trigger.Any [Trigger.object 0, Trigger.object 1], Trigger.object 0] ∧
    (Trigger.call
      (Trigger.All [Trigger.object 0, Trigger.Any [Trigger.object 0, Trigger.object 1]])
      (fun a => if a = 1 then State.Always
        else State.OnImprovement Double.infinity OptimizationType.Minimization)
      ⟨1, Double.finite 1, Double.finite 1, Double.finite 1, Double.finite 1⟩
      ⟨1, 1, 2, OptimizationType.Minimization⟩).1 = true ∧
    (Trigger.call
      (Trigger.All [Trigger.Any [Trigger.object 0, Trigger.object 1], Trigger.object 0])
      (fun a => if a = 1 then State.Always
        else State.OnImprovement Double.infinity OptimizationType.Minimization)
      ⟨1, Double.finite 1, Double.finite 1, Double.finite 1, Double.finite 1⟩
      ⟨1, 1, 2, OptimizationType.Minimization⟩).1 = false :=
  ⟨List.Perm.swap _ _ _, by decide, by decide, List.Perm.swap _ _ _, by decide, by decide⟩

/-- C19, amended: for every trigger set (`Any` or `All`) no two members of which share an
object, every permutation of its members and every snapshot and problem, the permuted
set, evaluated from the same memory, returns the same boolean as the set. -/
theorem C19_member_order (ts ts' : List Trigger) (m : Memory) (log_info : Info)
    (pb_info : MetaData) (hp : ts.Perm ts') (h : ts.Pairwise Trigger.apart) :
    (Trigger.call (Trigger.Any ts) m log_info pb_info).1 =
      (Trigger.call (Trigger.Any ts') m log_info pb_info).1 ∧
    (Trigger.call (Trigger.All ts) m log_info pb_info).1 =
      (Trigger.call (Trigger.All ts') m log_info pb_info).1 := by
  have h' : ts'.Pairwise Trigger.apart := hp.pairwise h Trigger.apart_symm
  simp only [Trigger.call]
  constructor
  · rw [Bool.eq_iff_iff, Trigger.any_loop_iff_of_apart ts m log_info pb_info h,
      Trigger.any_loop_iff_of_apart ts' m log_info pb_info h']
    exact ⟨fun ⟨t, ht, hc⟩ => ⟨t, hp.mem_iff.1 ht, hc⟩,
      fun ⟨t, ht, hc⟩ => ⟨t, hp.mem_iff.2 ht, hc⟩⟩
  · rw [Bool.eq_iff_iff, Trigger.all_loop_iff_of_apart ts m log_info pb_info h,
      Trigger.all_loop_iff_of_apart ts' m log_info pb_info h']
    exact ⟨fun hall t ht => hall t (hp.mem_iff.2 ht),
      fun hall t ht => hall t (hp.mem_iff.1 ht)⟩

/-- C19, amended, at the members `imp` (an `OnImprovement` that does not fire: best 0,
value 1) and `always`, in the two orders: `Any` returns true and `All` false in both. -/
theorem C19_member_order_witness :
    [Trigger.object 0, Trigger.object 1].Perm [Trigger.object 1, Trigger.object 0] ∧
    [Trigger.object 0, Trigger.object 1].Pairwise Trigger.apart ∧
    (Trigger.call (Trigger.Any [Trigger.object 0, Trigger.object 1])
        (fun a => if a = 0 then
          State.OnImprovement (Double.finite 0) OptimizationType.Minimization
          else State.Always)
        ⟨1, Double.finite 1, Double.finite 1, Double.finite 0, Double.finite 0⟩
        ⟨1, 1, 2, OptimizationType.Minimization⟩).1 =
      (Trigger.call (Trigger.Any [Trigger.object 1, Trigger.object 0])
        (fun a => if a = 0 then
          State.OnImprovement (Double.finite 0) OptimizationType.Minimization
          else State.Always)
        ⟨1, Double.finite 1, Double.finite 1, Double.finite 0, Double.finite 0⟩
        ⟨1, 1, 2, OptimizationType.Minimization⟩).1 ∧
    (Trigger.call (Trigger.All [Trigger.object 0, Trigger.object 1])
        (fun a => if a = 0 then
          State.OnImprovement (Double.finite 0) OptimizationType.Minimization
          else State.Always)
        ⟨1, Double.finite 1, Double.finite 1, Double.finite 0, Double.finite 0⟩
        ⟨1, 1, 2, OptimizationType.Minimization⟩).1 =
      (Trigger.call (Trigger.All [Trigger.object 1, Trigger.object 0])
        (fun a => if a = 0 then
          State.OnImprovement (Double.finite 0) OptimizationType.Minimization
          else State.Always)
        ⟨1, Double.finite 1, Double.finite 1, Double.finite 0, Double.finite 0⟩
        ⟨1, 1, 2, OptimizationType.Minimization⟩).1 :=
  ⟨List.Perm.swap _ _ _, by decide,
    C19_member_order _ _ _ _ _ (List.Perm.swap _ _ _) (by decide)⟩

/-- C20: the result and the next state of `OnImprovement::operator()` are a function of
the transformed value of the snapshot, of the held best and of the optimization type:
on two snapshots of equal `transformed_y`, whatever their other fields, and on any two
problem descriptors, the returned boolean and the resulting object are equal. -/
theorem C20_OnImprovement_depends_on_transformed_y (b : Double) (_type : OptimizationType)
    (log_info log_info' : Info) (pb_info pb_info' : MetaData)
    (h : log_info.transformed_y = log_info'.transformed_y) :
    State.call (State.OnImprovement b _type) log_info pb_info =
      State.call (State.OnImprovement b _type) log_info' pb_info' := by
  simp only [State.call, h]

/-- C20 at two snapshots of transformed value 1 that differ in every other field, and two
problems of opposite optimization types. -/
theorem C20_OnImprovement_depends_on_transformed_y_witness :
    (Info.mk 1 (Double.finite 3) (Double.finite 1) (Double.finite 3)
        (Double.finite 1)).transformed_y =
      (Info.mk 9 Double.nan (Double.finite 1) Double.neg_infinity
        (Double.finite 0)).transformed_y ∧
    State.call (State.OnImprovement (Double.finite 2) OptimizationType.Minimization)
        (Info.mk 1 (Double.finite 3) (Double.finite 1) (Double.finite 3) (Double.finite 1))
        ⟨1, 1, 2, OptimizationType.Minimization⟩ =
      State.call (State.OnImprovement (Double.finite 2) OptimizationType.Minimization)
        (Info.mk 9 Double.nan (Double.finite 1) Double.neg_infinity (Double.finite 0))
        ⟨2, 5, 10, OptimizationType.Maximization⟩ :=
  ⟨rfl, C20_OnImprovement_depends_on_transformed_y _ _ _ _ _ _ rfl⟩

/-- C21, the code at the failing input: on the logger built by `Logger()`, which was
never attached, the accessor `problem()` dereferences the null `_problem` and reports
nothing, whereas `log` on the same logger reports the failure in both builds. -/
theorem C21_problem_unattached_null_dereference :
    Logger.problem Logger.new_empty = Read.null_dereference ∧
    (World.log false (fun _ (n : Nat) => n + 1)
      (World.mk Logger.new_empty (fun _ => State.Always) 0)
      ⟨1, Double.finite 1, Double.finite 1, Double.finite 1, Double.finite 1⟩).failure =
      some Failure.assertion ∧
    (World.log true (fun _ (n : Nat) => n + 1)
      (World.mk Logger.new_empty (fun _ => State.Always) 0)
      ⟨1, Double.finite 1, Double.finite 1, Double.finite 1, Double.finite 1⟩).failure =
      some (Failure.runtime_error "Logger has not been attached to a problem.") := by
  decide

/-- C22: for every ECDF logger (in any state of its triggers, attached or not, in either
build) and every sequence of `log` calls, the attained-pair count of every grid cell
after a part of the sequence is at most the count after a longer part, and every pair
attained after the part is still attained after the longer part. -/
theorem C22_ECDF_count_monotone (ndebug : Bool) (w : World ECDF) (log_infos more : List Info)
    (key : ECDFKey) :
    ECDF.count (World.log_all ndebug ECDF.call w log_infos).data key ≤
      ECDF.count (World.log_all ndebug ECDF.call w (log_infos ++ more)).data key ∧
    ∀ pair ∈ (World.log_all ndebug ECDF.call w log_infos).data.grid key,
      pair ∈ (World.log_all ndebug ECDF.call w (log_infos ++ more)).data.grid key := by
  have happ : World.log_all ndebug ECDF.call w (log_infos ++ more) =
      World.log_all ndebug ECDF.call (World.log_all ndebug ECDF.call w log_infos) more := by
    simp only [World.log_all, List.foldl_append]
  rw [happ]
  exact ecdf_log_all_grows ndebug _ more key

/-- C24, as stated, fails on values that are not finite.  Under minimization, right after
a reset: the first value of a sequence, when it is plus infinity, does not fire although
no earlier value exists; and after the sequence (NaN) the value 1 fires although it is
not strictly better than the earlier value NaN. -/
theorem C24_OnImprovement_sequence_not_finite_counterexample :
    (State.call
      (State.feed (State.reset (State.OnImprovement (Double.finite 0)
        OptimizationType.Minimization)) [] ⟨1, 1, 2, OptimizationType.Minimization⟩)
      ⟨1, Double.infinity, Double.infinity, Double.infinity, Double.infinity⟩
      ⟨1, 1, 2, OptimizationType.Minimization⟩).1 = false ∧
    (∀ e ∈ ([] : List Info), Double.lt Double.infinity e.transformed_y = true) ∧
    (State.call
      (State.feed (State.reset (State.OnImprovement (Double.finite 0)
        OptimizationType.Minimization))
        [⟨1, Double.nan, Double.nan, Double.nan, Double.nan⟩]
        ⟨1, 1, 2, OptimizationType.Minimization⟩)
      ⟨2, Double.finite 1, Double.finite 1, Double.finite 1, Double.finite 1⟩
      ⟨1, 1, 2, OptimizationType.Minimization⟩).1 = true ∧
    Double.lt (Double.finite 1) Double.nan = false :=
  ⟨by decide, by simp, by decide, by decide⟩

/-- C24, amended: for every sequence of finite transformed values (no NaN, no infinity)
fed one by one to an `OnImprovement` right after its construction or a `reset()`, the
trigger fires on a value if and only if the value is strictly better than every earlier
one (smaller under minimization, greater under maximization); after the sequence the
held best is the initial infinity when the sequence is empty, and otherwise a value of
the sequence that none of its values is strictly better than (its minimum under
minimization, its maximum under maximization). -/
theorem C24_OnImprovement_sequence (b0 : Double) (_type : OptimizationType)
    (pb_info pb : MetaData) (pre : List Info) (x : Info)
    (hpre : ∀ e ∈ pre, ∃ q, e.transformed_y = Double.finite q)
    (hx : ∃ q, x.transformed_y = Double.finite q) :
    OnImprovement.new pb_info =
      State.reset (State.OnImprovement b0 pb_info.optimization_type) ∧
    ((State.call (State.feed (State.reset (State.OnImprovement b0 _type)) pre pb) x pb).1 =
        true ↔
      ∀ e ∈ pre,
        (match _type with
          | OptimizationType.Minimization => Double.lt x.transformed_y e.transformed_y
          | OptimizationType.Maximization => Double.gt x.transformed_y e.transformed_y) =
          true) ∧
    ∃ best, State.feed (State.reset (State.OnImprovement b0 _type)) pre pb =
        State.OnImprovement best _type ∧
      (pre = [] →
        best = (match _type with
          | OptimizationType.Minimization => Double.infinity
          | OptimizationType.Maximization => Double.neg_infinity)) ∧
      (pre ≠ [] → (∃ e ∈ pre, best = e.transformed_y) ∧
        ∀ e ∈ pre,
          (match _type with
            | OptimizationType.Minimization => Double.lt e.transformed_y best
            | OptimizationType.Maximization => Double.gt e.transformed_y best) = false) := by
  obtain ⟨best, hfeed, hnil, hcons, hiff⟩ := feed_finite b0 _type pb pre hpre
  obtain ⟨q, hq⟩ := hx
  have hcall : (State.call (State.OnImprovement best _type) x pb).1 =
      compare_objectives x.transformed_y best _type := by
    by_cases hc : compare_objectives x.transformed_y best _type = true
    · simp [State.call, hc]
    · simp [State.call, hc]
  refine ⟨rfl, ?_, best, hfeed, ?_, ?_⟩
  · rw [hfeed, hcall, hq, hiff q]
    cases _type <;> exact Iff.rfl
  · intro hp
    rw [hnil hp]
    cases _type <;> rfl
  · intro hp
    refine ⟨(hcons hp).1, fun e he => ?_⟩
    have := (hcons hp).2 e he
    cases _type <;> exact this

/-- C24, amended, under minimization at the sequence 3, 1 followed by 2: the value 2 is
not below 1, and does not fire. -/
theorem C24_OnImprovement_sequence_witness :
    (∀ e ∈ [Info.mk 1 (Double.finite 3) (Double.finite 3) (Double.finite 3) (Double.finite 3),
        Info.mk 2 (Double.finite 1) (Double.finite 1) (Double.finite 1) (Double.finite 1)],
      ∃ q, e.transformed_y = Double.finite q) ∧
    (∃ q, (Info.mk 3 (Double.finite 2) (Double.finite 2) (Double.finite 1)
      (Double.finite 1)).transformed_y = Double.finite q) ∧
    ((State.call (State.feed
        (State.reset (State.OnImprovement (Double.finite 0) OptimizationType.Minimization))
        [Info.mk 1 (Double.finite 3) (Double.finite 3) (Double.finite 3) (Double.finite 3),
          Info.mk 2 (Double.finite 1) (Double.finite 1) (Double.finite 1) (Double.finite 1)]
        ⟨1, 1, 2, OptimizationType.Minimization⟩)
        (Info.mk 3 (Double.finite 2) (Double.finite 2) (Double.finite 1) (Double.finite 1))
        ⟨1, 1, 2, OptimizationType.Minimization⟩).1 = true ↔
      ∀ e ∈ [Info.mk 1 (Double.finite 3) (Double.finite 3) (Double.finite 3) (Double.finite 3),
          Info.mk 2 (Double.finite 1) (Double.finite 1) (Double.finite 1) (Double.finite 1)],
        Double.lt (Info.mk 3 (Double.finite 2) (Double.finite 2) (Double.finite 1)
          (Double.finite 1)).transformed_y e.transformed_y = true) :=
  ⟨by simp, ⟨2, rfl⟩,
    (C24_OnImprovement_sequence (Double.finite 0) OptimizationType.Minimization
      ⟨1, 1, 2, OptimizationType.Minimization⟩ ⟨1, 1, 2, OptimizationType.Minimization⟩
      [Info.mk 1 (Double.finite 3) (Double.finite 3) (Double.finite 3) (Double.finite 3),
        Info.mk 2 (Double.finite 1) (Double.finite 1) (Double.finite 1) (Double.finite 1)]
      (Info.mk 3 (Double.finite 2) (Double.finite 2) (Double.finite 1) (Double.finite 1))
      (by simp) ⟨2, rfl⟩).2.1⟩

/-- C25, as stated, fails when a later member shares an object with the member that
fired: in `Any{imp, imp}`, with `imp` an `OnImprovement` (minimization, best +infinity)
and the value 1, the first member fires, and the state of the second member, which is
not evaluated, has changed: it holds the value on which the first one fired. -/
theorem C25_Any_shared_object_counterexample :
    (Trigger.call (Trigger.object 0)
      (fun _ => State.OnImprovement Double.infinity OptimizationType.Minimization)
      ⟨1, Double.finite 1, Double.finite 1, Double.finite 1, Double.finite 1⟩
      ⟨1, 1, 2, OptimizationType.Minimization⟩).1 = true ∧
    (∀ a ∈ Trigger.addresses (Trigger.object 0),
      (Trigger.call (Trigger.Any [Trigger.object 0, Trigger.object 0])
        (fun _ => State.OnImprovement Double.infinity OptimizationType.Minimization)
        ⟨1, Double.finite 1, Double.finite 1, Double.finite 1, Double.finite 1⟩
        ⟨1, 1, 2, OptimizationType.Minimization⟩).2 a =
      State.OnImprovement (Double.finite 1) OptimizationType.Minimization) := by
  refine ⟨by decide, fun a ha => ?_⟩
  simp only [Trigger.addresses, List.mem_singleton] at ha
  subst ha
  decide

/-- C25, amended: when the members of an `Any` share no object, the members before `t`
return false and `t` returns true, then `Any::operator()` returns true and leaves the
memory that the calls of the members up to and including `t`, in order, leave; the
objects of the members after `t` are unchanged; and when the members before `t` are
objects (`OnImprovement` or `Always`), only the object of `t` can change. -/
theorem C25_Any_stops_at_first_true (pre post : List Trigger) (t : Trigger) (m : Memory)
    (log_info : Info) (pb_info : MetaData)
    (h : (pre ++ t :: post).Pairwise Trigger.apart)
    (hpre : ∀ u ∈ pre, (Trigger.call u m log_info pb_info).1 = false)
    (ht : (Trigger.call t m log_info pb_info).1 = true) :
    Trigger.call (Trigger.Any (pre ++ t :: post)) m log_info pb_info =
      (true, Trigger.call_each (pre ++ [t]) m log_info pb_info) ∧
    (∀ u ∈ post, ∀ a ∈ Trigger.addresses u,
      (Trigger.call (Trigger.Any (pre ++ t :: post)) m log_info pb_info).2 a = m a) ∧
    ((∀ u ∈ pre, ∃ b, u = Trigger.object b) → ∀ a, a ∉ Trigger.addresses t →
      (Trigger.call (Trigger.Any (pre ++ t :: post)) m log_info pb_info).2 a = m a) := by
  rw [List.pairwise_append, List.pairwise_cons] at h
  obtain ⟨hpp, ⟨htp, -⟩, hcross⟩ := h
  have hpf : (Trigger.any_loop pre m log_info pb_info).1 = false := by
    rw [Bool.eq_false_iff]
    intro hc
    obtain ⟨u, hu, hcu⟩ := (Trigger.any_loop_iff_of_apart pre m log_info pb_info hpp).1 hc
    rw [hpre u hu] at hcu
    exact Bool.noConfusion hcu
  have hm1 := Trigger.any_loop_false_call_each pre m log_info pb_info hpf
  have hnot : ∀ v ∈ t :: post, ∀ a ∈ Trigger.addresses v,
      a ∉ Trigger.addresses_list pre := by
    intro v hv a ha hmem
    obtain ⟨u, hu, hau⟩ := (Trigger.mem_addresses_list pre a).1 hmem
    exact hcross u hu v hv a hau ha
  have ht1 : (Trigger.call t (Trigger.call_each pre m log_info pb_info) log_info pb_info).1 =
      true := by
    rw [(Trigger.call_local t _ m log_info pb_info (fun a => a ∈ Trigger.addresses t)
      (fun _ ha => ha)
      (fun a ha => Trigger.call_each_frame pre m log_info pb_info a
        (hnot t (List.mem_cons_self _ _) a ha))).1]
    exact ht
  have hlast : Trigger.call_each (pre ++ [t]) m log_info pb_info =
      (Trigger.call t (Trigger.call_each pre m log_info pb_info) log_info pb_info).2 := by
    rw [Trigger.call_each_append]
    rfl
  have hres : Trigger.call (Trigger.Any (pre ++ t :: post)) m log_info pb_info =
      (true, Trigger.call_each (pre ++ [t]) m log_info pb_info) := by
    simp only [Trigger.call]
    rw [Trigger.any_loop_append, hpf]
    simp only [Bool.false_eq_true, if_false]
    rw [hm1, hlast]
    simp only [Trigger.any_loop, ht1, if_true]
  refine ⟨hres, ?_, ?_⟩
  · intro u hu a ha
    rw [hres, hlast]
    rw [Trigger.call_frame t _ log_info pb_info a (fun hat => htp u hu a hat ha)]
    exact Trigger.call_each_frame pre m log_info pb_info a
      (hnot u (List.mem_cons_of_mem _ hu) a ha)
  · intro hobj a ha
    rw [hres, hlast, Trigger.call_each_objects_false pre m log_info pb_info hobj hpre]
    exact Trigger.call_frame t m log_info pb_info a ha

/-- C25, amended, at `Any{a, b, c}` of three `OnImprovement` for minimization with bests
0, +infinity and 5, on the value 1: `a` does not fire, `b` fires, and `c`, on which the
value would be an improvement, keeps its best 5. -/
theorem C25_Any_stops_at_first_true_witness :
    ([Trigger.object 0] ++ Trigger.object 1 :: [Trigger.object 2]).Pairwise Trigger.apart ∧
    (Trigger.call (Trigger.Any ([Trigger.object 0] ++ Trigger.object 1 :: [Trigger.object 2]))
      (fun a => State.OnImprovement
        (if a = 0 then Double.finite 0 else if a = 1 then Double.infinity else Double.finite 5)
        OptimizationType.Minimization)
      ⟨1, Double.finite 1, Double.finite 1, Double.finite 0, Double.finite 0⟩
      ⟨1, 1, 2, OptimizationType.Minimization⟩).2 2 =
      State.OnImprovement (Double.finite 5) OptimizationType.Minimization :=
  ⟨by decide,
    (C25_Any_stops_at_first_true [Trigger.object 0] [Trigger.object 2] (Trigger.object 1)
      (fun a => State.OnImprovement
        (if a = 0 then Double.finite 0 else if a = 1 then Double.infinity else Double.finite 5)
        OptimizationType.Minimization)
      ⟨1, Double.finite 1, Double.finite 1, Double.finite 0, Double.finite 0⟩
      ⟨1, 1, 2, OptimizationType.Minimization⟩ (by decide)
      (by intro u hu; rw [List.mem_singleton.1 hu]; decide) (by decide)).2.1
        (Trigger.object 2) (by simp) 2 (by simp [Trigger.addresses])⟩

/-- C26, as stated, fails when a later member shares an object with an earlier one: in
`All{imp, Any{}, imp}`, with `imp` an `OnImprovement` (minimization, best +infinity) and
the value 1, the first member returns true, the second (an empty `Any`) is the first to
return false, and the third member, which comes after it, has changed: it holds 1. -/
theorem C26_All_shared_object_counterexample :
    (Trigger.call (Trigger.object 0)
      (fun _ => State.OnImprovement Double.infinity OptimizationType.Minimization)
      ⟨1, Double.finite 1, Double.finite 1, Double.finite 1, Double.finite 1⟩
      ⟨1, 1, 2, OptimizationType.Minimization⟩).1 = true ∧
    (Trigger.call (Trigger.Any [])
      (fun _ => State.OnImprovement Double.infinity OptimizationType.Minimization)
      ⟨1, Double.finite 1, Double.finite 1, Double.finite 1, Double.finite 1⟩
      ⟨1, 1, 2, OptimizationType.Minimization⟩).1 = false ∧
    (∀ a ∈ Trigger.addresses (Trigger.object 0),
      (Trigger.call (Trigger.All [Trigger.object 0, Trigger.Any [], Trigger.object 0])
        (fun _ => State.OnImprovement Double.infinity OptimizationType.Minimization)
        ⟨1, Double.finite 1, Double.finite 1, Double.finite 1, Double.finite 1⟩
        ⟨1, 1, 2, OptimizationType.Minimization⟩).2 a =
      State.OnImprovement (Double.finite 1) OptimizationType.Minimization) := by
  refine ⟨by decide, by decide, fun a ha => ?_⟩
  simp only [Trigger.addresses, List.mem_singleton] at ha
  subst ha
  decide

/-- C26, amended: let the members of an `All` share no object.  When the members before
`t` return true and `t` returns false, `All::operator()` returns false and leaves the
memory that the calls of the members up to and including `t`, in order, leave: the
objects of the members after `t` are unchanged, every `OnImprovement` before `t` holds
the value of the snapshot, and a logger holding the set does not call its handler.
When `All::operator()` returns true, it leaves the memory that the calls of all the
members, in order and once each, leave. -/
theorem C26_All_stops_at_first_false (ts : List Trigger) (m : Memory) (log_info : Info)
    (pb_info : MetaData) (h : ts.Pairwise Trigger.apart) :
    (∀ (pre post : List Trigger) (t : Trigger), ts = pre ++ t :: post →
      (∀ u ∈ pre, (Trigger.call u m log_info pb_info).1 = true) →
      (Trigger.call t m log_info pb_info).1 = false →
        Trigger.call (Trigger.All ts) m log_info pb_info =
          (false, Trigger.call_each (pre ++ [t]) m log_info pb_info) ∧
        (∀ u ∈ post, ∀ a ∈ Trigger.addresses u,
          (Trigger.call (Trigger.All ts) m log_info pb_info).2 a = m a) ∧
        (∀ (a : Nat) (b : Double) (_type : OptimizationType), Trigger.object a ∈ pre →
          m a = State.OnImprovement b _type →
          (Trigger.call (Trigger.All ts) m log_info pb_info).2 a =
            State.OnImprovement log_info.transformed_y _type) ∧
        ∀ (α : Type) (ndebug : Bool) (call : Info → α → α) (w : World α),
          w.memory = m → Logger.triggers w.logger = Set.All ts →
          w.logger._problem = some pb_info →
          (World.log ndebug call w log_info).state.data = w.data) ∧
    ((Trigger.call (Trigger.All ts) m log_info pb_info).1 = true →
      (Trigger.call (Trigger.All ts) m log_info pb_info).2 =
        Trigger.call_each ts m log_info pb_info) := by
  refine ⟨?_, fun htrue => Trigger.all_loop_true_call_each ts m log_info pb_info htrue⟩
  intro pre post t hts hpre ht
  subst hts
  have hsub : (pre ++ [t]).Pairwise Trigger.apart := by
    have hl : (pre ++ [t]).Sublist (pre ++ t :: post) := by
      have : pre ++ t :: post = (pre ++ [t]) ++ post := by simp
      rw [this]
      exact List.sublist_append_left _ _
    exact h.sublist hl
  rw [List.pairwise_append, List.pairwise_cons] at h
  obtain ⟨hpp, ⟨htp, -⟩, hcross⟩ := h
  have hpt : (Trigger.all_loop pre m log_info pb_info).1 = true :=
    (Trigger.all_loop_iff_of_apart pre m log_info pb_info hpp).2 hpre
  have hm1 := Trigger.all_loop_true_call_each pre m log_info pb_info hpt
  have hnot : ∀ v ∈ t :: post, ∀ a ∈ Trigger.addresses v,
      a ∉ Trigger.addresses_list pre := by
    intro v hv a ha hmem
    obtain ⟨u, hu, hau⟩ := (Trigger.mem_addresses_list pre a).1 hmem
    exact hcross u hu v hv a hau ha
  have ht1 : (Trigger.call t (Trigger.call_each pre m log_info pb_info) log_info pb_info).1 =
      false := by
    rw [(Trigger.call_local t _ m log_info pb_info (fun a => a ∈ Trigger.addresses t)
      (fun _ ha => ha)
      (fun a ha => Trigger.call_each_frame pre m log_info pb_info a
        (hnot t (List.mem_cons_self _ _) a ha))).1]
    exact ht
  have hlast : Trigger.call_each (pre ++ [t]) m log_info pb_info =
      (Trigger.call t (Trigger.call_each pre m log_info pb_info) log_info pb_info).2 := by
    rw [Trigger.call_each_append]
    rfl
  have hres : Trigger.call (Trigger.All (pre ++ t :: post)) m log_info pb_info =
      (false, Trigger.call_each (pre ++ [t]) m log_info pb_info) := by
    simp only [Trigger.call]
    rw [Trigger.all_loop_append, hpt]
    simp only [if_true]
    rw [hm1, hlast]
    simp only [Trigger.all_loop, ht1, Bool.not_false, if_true]
  refine ⟨hres, ?_, ?_, ?_⟩
  · intro u hu a ha
    rw [hres, hlast]
    rw [Trigger.call_frame t _ log_info pb_info a (fun hat => htp u hu a hat ha)]
    exact Trigger.call_each_frame pre m log_info pb_info a
      (hnot u (List.mem_cons_of_mem _ hu) a ha)
  · intro a b _type ha hma
    rw [hres]
    show Trigger.call_each (pre ++ [t]) m log_info pb_info a = _
    rw [Trigger.call_each_object_of_apart (pre ++ [t]) m log_info pb_info a hsub
      (List.mem_append_left _ ha)]
    have hfire := hpre _ ha
    simp only [Trigger.call, hma] at hfire
    by_cases hc : compare_objectives log_info.transformed_y b _type = true
    · simp [hma, State.call, hc]
    · simp [State.call, hc] at hfire
  · intro α ndebug call w hm hT hp
    have hfalse : (Set.call (Logger.triggers w.logger) w.memory log_info pb_info).1 =
        false := by
      rw [hT, hm]
      show (Trigger.call (Trigger.All (pre ++ t :: post)) m log_info pb_info).1 = false
      rw [hres]
    unfold World.log
    split
    · rfl
    · simp only [hp]
      split
      · rfl
      · split
        · rfl
        · simp [hfalse]

/-- C26, amended, at `All{a, b, c}` of three `OnImprovement` for minimization with bests
+infinity, 0 and 5, on the value 1: `a` fires and records 1, `b` does not fire, `All`
returns false, and `c` keeps its best 5. -/
theorem C26_All_stops_at_first_false_witness :
    [Trigger.object 0, Trigger.object 1, Trigger.object 2].Pairwise Trigger.apart ∧
    Trigger.call (Trigger.All [Trigger.object 0, Trigger.object 1, Trigger.object 2])
      (fun a => State.OnImprovement
        (if a = 0 then Double.infinity else if a = 1 then Double.finite 0 else Double.finite 5)
        OptimizationType.Minimization)
      ⟨1, Double.finite 1, Double.finite 1, Double.finite 0, Double.finite 0⟩
      ⟨1, 1, 2, OptimizationType.Minimization⟩ =
    (false, Trigger.call_each ([Trigger.object 0] ++ [Trigger.object 1])
      (fun a => State.OnImprovement
        (if a = 0 then Double.infinity else if a = 1 then Double.finite 0 else Double.finite 5)
        OptimizationType.Minimization)
      ⟨1, Double.finite 1, Double.finite 1, Double.finite 0, Double.finite 0⟩
      ⟨1, 1, 2, OptimizationType.Minimization⟩) ∧
    (Trigger.call (Trigger.All [Trigger.object 0, Trigger.object 1, Trigger.object 2])
      (fun a => State.OnImprovement
        (if a = 0 then Double.infinity else if a = 1 then Double.finite 0 else Double.finite 5)
        OptimizationType.Minimization)
      ⟨1, Double.finite 1, Double.finite 1, Double.finite 0, Double.finite 0⟩
      ⟨1, 1, 2, OptimizationType.Minimization⟩).2 0 =
      State.OnImprovement (Double.finite 1) OptimizationType.Minimization :=
  ⟨by decide,
    ((C26_All_stops_at_first_false [Trigger.object 0, Trigger.object 1, Trigger.object 2]
      (fun a => State.OnImprovement
        (if a = 0 then Double.infinity else if a = 1 then Double.finite 0 else Double.finite 5)
        OptimizationType.Minimization)
      ⟨1, Double.finite 1, Double.finite 1, Double.finite 0, Double.finite 0⟩
      ⟨1, 1, 2, OptimizationType.Minimization⟩ (by decide)).1
        [Trigger.object 0] [Trigger.object 2] (Trigger.object 1) rfl
        (by intro u hu; rw [List.mem_singleton.1 hu]; decide) (by decide)).1,
    ((C26_All_stops_at_first_false [Trigger.object 0, Trigger.object 1, Trigger.object 2]
      (fun a => State.OnImprovement
        (if a = 0 then Double.infinity else if a = 1 then Double.finite 0 else Double.finite 5)
        OptimizationType.Minimization)
      ⟨1, Double.finite 1, Double.finite 1, Double.finite 0, Double.finite 0⟩
      ⟨1, 1, 2, OptimizationType.Minimization⟩ (by decide)).1
        [Trigger.object 0] [Trigger.object 2] (Trigger.object 1) rfl
        (by intro u hu; rw [List.mem_singleton.1 hu]; decide) (by decide)).2.2.1
          0 Double.infinity OptimizationType.Minimization (by simp) rfl⟩

/-- C27: for every `n_variables >= 0` and every vector `x` of at least `n_variables`
entries, `LeadingOnes::evaluate(x)` reads within the vector and returns the length of
the longest prefix of `x[0..n_variables)` made of ones; this length is at most
`n_variables`, it is `n_variables` if and only if the first `n_variables` entries are
all 1, and the constructor stores the optimum `x` = all ones with `y = n_variables`. -/
theorem C27_LeadingOnes_evaluate (n_variables : Nat) (x : List Int)
    (h : n_variables ≤ x.length) :
    problem.pbo.LeadingOnes.evaluate n_variables x =
      some (Double.finite
        ((((x.take n_variables).takeWhile (fun v => decide (v = 1))).length : Nat) : ℚ)) ∧
    ((x.take n_variables).takeWhile (fun v => decide (v = 1))).length ≤ n_variables ∧
    (problem.pbo.LeadingOnes.evaluate n_variables x =
        some (Double.finite ((n_variables : Nat) : ℚ)) ↔
      x.take n_variables = List.replicate n_variables 1) ∧
    problem.pbo.LeadingOnes.new n_variables =
      (List.replicate n_variables 1, some (Double.finite ((n_variables : Nat) : ℚ))) := by
  have heval : ∀ y : List Int, n_variables ≤ y.length →
      problem.pbo.LeadingOnes.evaluate n_variables y =
        some (Double.finite
          ((((y.take n_variables).takeWhile (fun v => decide (v = 1))).length : Nat) : ℚ)) := by
    intro y hy
    have := evaluate_loop_eq y n_variables 0 (by omega)
    simpa [problem.pbo.LeadingOnes.evaluate] using this
  have hlen : ∀ y : List Int, n_variables ≤ y.length →
      (((y.take n_variables).takeWhile (fun v => decide (v = 1))).length = n_variables ↔
        y.take n_variables = List.replicate n_variables 1) := by
    intro y hy
    have htake : (y.take n_variables).length = n_variables := by
      rw [List.length_take]; omega
    constructor
    · intro hl
      have heq : (y.take n_variables).takeWhile (fun v => decide (v = 1)) =
          y.take n_variables :=
        (List.takeWhile_prefix _).eq_of_length (by rw [hl, htake])
      rw [List.eq_replicate_iff]
      refine ⟨htake, fun b hb => ?_⟩
      have := List.takeWhile_eq_self_iff.1 heq b hb
      simpa using this
    · intro hr
      rw [hr]
      have : (List.replicate n_variables (1 : Int)).takeWhile (fun v => decide (v = 1)) =
          List.replicate n_variables 1 :=
        List.takeWhile_eq_self_iff.2 (fun b hb => by
          simp [List.eq_of_mem_replicate hb])
      rw [this, List.length_replicate]
  refine ⟨heval x h, ?_, ?_, ?_⟩
  · calc ((x.take n_variables).takeWhile (fun v => decide (v = 1))).length
        ≤ (x.take n_variables).length := (List.takeWhile_prefix _).length_le
      _ ≤ n_variables := by rw [List.length_take]; omega
  · rw [heval x h, ← hlen x h]
    constructor
    · intro he
      have := Double.finite.inj (Option.some.inj he)
      exact_mod_cast this
    · intro he
      rw [he]
  · have hrep : n_variables ≤ (List.replicate n_variables (1 : Int)).length := by simp
    have htk : (List.replicate n_variables (1 : Int)).take n_variables =
        List.replicate n_variables 1 := by
      rw [List.take_of_length_le (by simp)]
    unfold problem.pbo.LeadingOnes.new
    rw [heval _ hrep, (hlen _ hrep).2 htk]

/-- C27 at `n_variables = 3` and `x = (1, 1, 0, 1)`: two leading ones. -/
theorem C27_LeadingOnes_evaluate_witness :
    3 ≤ [(1 : Int), 1, 0, 1].length ∧
    problem.pbo.LeadingOnes.evaluate 3 [1, 1, 0, 1] =
      some (Double.finite
        (((([(1 : Int), 1, 0, 1].take 3).takeWhile (fun v => decide (v = 1))).length : Nat) :
          ℚ)) :=
  ⟨by decide, (C27_LeadingOnes_evaluate 3 [1, 1, 0, 1] (by decide)).1⟩

/-- C28: for every `n_variables >= 1`, `n_linear_dimensions_` is 1 when
`n_variables <= 40` and the ceiling of `n_variables / 40` otherwise; it lies between 1
and `n_variables`, so it is not zero where `evaluate` divides by it, every index that
`evaluate` reads is below `n_variables`, and on an input of length `n_variables` no
`x.at(i)` throws. -/
theorem C28_SharpRidge_n_linear_dimensions (n_variables : Nat) (h : 1 ≤ n_variables) :
    problem.bbob.SharpRidge.n_linear_dimensions n_variables =
      (if n_variables ≤ 40 then 1 else Int.toNat ⌈(n_variables : ℚ) / 40⌉) ∧
    1 ≤ problem.bbob.SharpRidge.n_linear_dimensions n_variables ∧
    problem.bbob.SharpRidge.n_linear_dimensions n_variables ≤ n_variables ∧
    problem.bbob.SharpRidge.n_linear_dimensions n_variables ≠ 0 ∧
    (∀ i ∈ problem.bbob.SharpRidge.indices n_variables
        (problem.bbob.SharpRidge.n_linear_dimensions n_variables), i < n_variables) ∧
    ∀ (F : Type) (A : problem.bbob.Arithmetic F) (x : List F), x.length = n_variables →
      (problem.bbob.SharpRidge.evaluate A n_variables
        (problem.bbob.SharpRidge.n_linear_dimensions n_variables) x).isSome = true := by
  have h1 : 1 ≤ problem.bbob.SharpRidge.n_linear_dimensions n_variables := by
    rw [n_linear_dimensions_eq]; split <;> omega
  have h2 : problem.bbob.SharpRidge.n_linear_dimensions n_variables ≤ n_variables := by
    rw [n_linear_dimensions_eq]; split <;> omega
  have hidx : ∀ i ∈ problem.bbob.SharpRidge.indices n_variables
      (problem.bbob.SharpRidge.n_linear_dimensions n_variables), i < n_variables := by
    intro i hi
    simp only [problem.bbob.SharpRidge.indices, List.mem_append, List.mem_range'_1,
      List.mem_range] at hi
    omega
  refine ⟨?_, h1, h2, by omega, hidx, ?_⟩
  · unfold problem.bbob.SharpRidge.n_linear_dimensions
    split <;> simp
  · intro F A x hx
    obtain ⟨r1, hr1⟩ := foldlM_reads_in_range x (fun result xi => A.add result (A.mul xi xi))
      (List.range' (problem.bbob.SharpRidge.n_linear_dimensions n_variables)
        (n_variables - problem.bbob.SharpRidge.n_linear_dimensions n_variables)) A.zero
      (fun i hi => by
        rw [hx]
        exact hidx i (by simp only [problem.bbob.SharpRidge.indices, List.mem_append]
                         exact Or.inl hi))
    obtain ⟨r2, hr2⟩ := foldlM_reads_in_range x
      (fun result xi => A.add result (A.div (A.mul xi xi)
        (A.of_int (problem.bbob.SharpRidge.n_linear_dimensions n_variables))))
      (List.range (problem.bbob.SharpRidge.n_linear_dimensions n_variables))
      (A.mul A.alpha (A.sqrt (A.div r1
        (A.of_int (problem.bbob.SharpRidge.n_linear_dimensions n_variables)))))
      (fun i hi => by
        rw [hx]
        exact hidx i (by simp only [problem.bbob.SharpRidge.indices, List.mem_append]
                         exact Or.inr hi))
    unfold problem.bbob.SharpRidge.evaluate
    rw [hr1, Option.some_bind, hr2]
    rfl

/-- C28 at `n_variables = 100`: `n_linear_dimensions_` is between 1 and 100. -/
theorem C28_SharpRidge_n_linear_dimensions_witness :
    1 ≤ 100 ∧
    1 ≤ problem.bbob.SharpRidge.n_linear_dimensions 100 ∧
    problem.bbob.SharpRidge.n_linear_dimensions 100 ≤ 100 :=
  ⟨by decide, (C28_SharpRidge_n_linear_dimensions 100 (by decide)).2.1,
    (C28_SharpRidge_n_linear_dimensions 100 (by decide)).2.2.1⟩

end ioh
